import Mathlib

/-!
Verification of the structured-content core of `src/server.py` (MCP-Doc).

The definitions below are a shallow embedding of the Python source.  The
document tree is modelled per the consumed interface of the spec (section 6):
an in-memory handle exposing ordered body nodes; each paragraph exposes its
style name, alignment, ordered runs and page-break flag; each table exposes
rows of cells, each cell exposing its merge descriptor (vertical-merge
presence/value, horizontal span) and its own paragraph list.  Two cell
accessors are embedded: `getCell`, the raw per-coordinate access
`rows[r].cells[c]` of that interface (the access the reconstruction
algorithm is written against, and extensionally equal to the library
accessor on merge-free tables), and `tableCellResolved`, the faithful
model of python-docx's `Table.cell`, which resolves merges through the
flattened `Table._cells` list and therefore returns the restart cell at a
vertical-merge continuation coordinate.

Machine details that the claims do not touch are collapsed in the usual
shallow-embedding way: XML elements become option-typed fields (for example
`tcPr is None` and `tcPr.vMerge is None` collapse to `vMergeElem = none`),
and `python-docx` accessors that merely read a stored value become field
reads.  Mutation is modelled by state passing; a raised Python exception is
an `Except.error` carrying the document state at raise time, so that
"unchanged on error" is a real statement about the embedded control flow.
-/

/-- Paragraph alignment, the six values named by the extraction's
alignment map. -/
inductive Align
  | left | center | right | justify | distribute | thaiJustify
deriving DecidableEq, Repr

/-- Name the extraction emits for an alignment value
(`alignment_map` in the source). -/
def alignName : Align → String
  | .left => "LEFT"
  | .center => "CENTER"
  | .right => "RIGHT"
  | .justify => "JUSTIFY"
  | .distribute => "DISTRIBUTE"
  | .thaiJustify => "THAI_JUSTIFY"

/-- Reverse alignment map used when reapplying formatting
(`alignment_map_reverse` in `_apply_formatting_to_paragraph`). -/
def alignFromString (s : String) : Option Align :=
  if s = "LEFT" then some .left
  else if s = "CENTER" then some .center
  else if s = "RIGHT" then some .right
  else if s = "JUSTIFY" then some .justify
  else if s = "DISTRIBUTE" then some .distribute
  else if s = "THAI_JUSTIFY" then some .thaiJustify
  else none

/-- An inline run of a paragraph.  `bold`/`italic`/`underline` are tri-state
(`none` = inherited, as in python-docx); `colorRgb` stores the canonical
6-hex-digit rendering of `font.color.rgb` (`str(RGBColor)`); `eastAsiaFont`
is the `w:eastAsia` override of `rPr.rFonts`; `hasPageBreakBr` records
whether the run's XML contains a `w:br` with `w:type="page"`. -/
structure Run where
  text : String
  bold : Option Bool := none
  italic : Option Bool := none
  underline : Option Bool := none
  fontName : Option String := none
  eastAsiaFont : Option String := none
  sizePt : Option Rat := none
  colorRgb : Option String := none
  hasPageBreakBr : Bool := false
deriving DecidableEq, Repr

/-- A paragraph node.  `styleName` models `paragraph.style.name` (python-docx
always resolves a style object for a paragraph); `pageBreakBefore` models
`pPr is not None and pPr.pageBreakBefore is not None`. -/
structure Para where
  runs : List Run := []
  styleName : String := "Normal"
  alignment : Option Align := none
  pageBreakBefore : Bool := false
deriving DecidableEq, Repr

/-- A table cell.  `vMergeElem = none` models a cell with no `w:vMerge`
element (or no `tcPr` at all); `vMergeElem = some v` models a `w:vMerge`
element whose `w:val` attribute is `v` (`v = none` when the attribute is
absent).  `gridSpanVal` models `tcPr.gridSpan.val`. -/
structure Cell where
  vMergeElem : Option (Option String) := none
  gridSpanVal : Option Int := none
  paras : List Para := []
deriving DecidableEq, Repr

/-- A table row: its ordered cell elements. -/
structure TableRow where
  cells : List Cell := []
deriving DecidableEq, Repr

/-- A table node.  `colCount` is `len(table.columns)`, the number of
`gridCol` column definitions in `tblGrid`. -/
structure DTable where
  rows : List TableRow := []
  colCount : Nat := 0
  styleName : Option String := none
deriving DecidableEq, Repr

/-- One direct child of the document body: a paragraph, a table, or an
element of another type (skipped by the walker). -/
inductive BodyNode
  | para (p : Para)
  | table (t : DTable)
  | other
deriving DecidableEq, Repr

/-- An open document: its ordered body children and the names of the styles
known to the document (`document.styles`). -/
structure Doc where
  body : List BodyNode := []
  styles : List String := ["Normal"]
deriving DecidableEq, Repr

/-- The top-level paragraphs of a document, in order
(`document.paragraphs`). -/
def Doc.paragraphs (d : Doc) : List Para :=
  d.body.foldr (fun n acc => match n with | .para p => p :: acc | _ => acc) []

/-- The tables of a document, in order (`document.tables`). -/
def Doc.tables (d : Doc) : List DTable :=
  d.body.foldr (fun n acc => match n with | .table t => t :: acc | _ => acc) []

/-- Raw per-coordinate cell access of the consumed interface (spec
section 6): `rows[r].cells[c]`, `none` modelling an IndexError.  This is
the access the merge-grid algorithm is written against and coincides with
python-docx's `Table.cell` wherever no merge is in play (in particular on
merge-free tables); the merge-resolving library accessor itself is
embedded separately as `tableCellResolved`. -/
def getCell (t : DTable) (r c : Nat) : Option Cell :=
  (t.rows.get? r).bind (fun row => row.cells.get? c)

/-- Text of a paragraph: the concatenation of its run texts
(`paragraph.text`). -/
def paraText (p : Para) : String :=
  String.join (p.runs.map (·.text))

/-- Flat run-format record extracted for one run (the dict the source
appends to `block_info["runs"]`). -/
structure RunInfo where
  text : String := ""
  bold : Bool := false
  italic : Bool := false
  underline : Bool := false
  fontName : Option String := none
  fontSizePt : Option Rat := none
  fontColorRgb : Option String := none
deriving DecidableEq, Repr

/-- Extraction of one run's formatting record: tri-state booleans default to
false, font name / size / color are carried through as optional values. -/
def extractRunInfo (r : Run) : RunInfo :=
  { text := r.text
    bold := r.bold.getD false
    italic := r.italic.getD false
    underline := r.underline.getD false
    fontName := r.fontName
    fontSizePt := r.sizePt
    fontColorRgb := r.colorRgb }

/-- String prefix test over the character list
(Python `str.startswith`). -/
def strStartsWith (s pre : String) : Bool :=
  pre.toList.isPrefixOf s.toList

/-- Python `str.lower` (ASCII, which is all the source compares). -/
def pyLower (s : String) : String :=
  String.mk (s.toList.map Char.toLower)

/-- Python `str.upper` (ASCII, which is all the source compares). -/
def pyUpper (s : String) : String :=
  String.mk (s.toList.map Char.toUpper)

/-- Leading and trailing whitespace removal over the character list. -/
def trimChars (l : List Char) : List Char :=
  ((l.dropWhile Char.isWhitespace).reverse.dropWhile Char.isWhitespace).reverse

/-- Python `str.strip()`. -/
def pyTrim (s : String) : String :=
  String.mk (trimChars s.toList)

/-- Worker for whitespace splitting: collect the current fragment in
(reversed) `acc`, emitting it at each whitespace boundary. -/
def splitWsChars : List Char → List Char → List String
  | [], acc => if acc.isEmpty then [] else [String.mk acc.reverse]
  | c :: rest, acc =>
    if c.isWhitespace then
      if acc.isEmpty then splitWsChars rest []
      else String.mk acc.reverse :: splitWsChars rest []
    else splitWsChars rest (c :: acc)

/-- Python `str.split()` with no argument: split on whitespace runs,
dropping empty fragments. -/
def pySplitWs (s : String) : List String :=
  splitWsChars s.toList []

/-- Worker for substring replacement, fuelled by the input length (each
step consumes at least one character when the pattern is nonempty). -/
def replChars (pat repl : List Char) : Nat → List Char → List Char
  | _, [] => []
  | 0, l => l
  | fuel + 1, c :: rest =>
    if pat.isPrefixOf (c :: rest) then
      repl ++ replChars pat repl fuel ((c :: rest).drop pat.length)
    else c :: replChars pat repl fuel rest

/-- Python `str.replace(pat, repl)` for the nonempty patterns the source
uses. -/
def pyReplace (s pat repl : String) : String :=
  if pat.toList.isEmpty then s
  else String.mk (replChars pat.toList repl.toList (s.toList.length + 1) s.toList)

/-- Worker for separator splitting, fuelled by the input length. -/
def splitOnAux (sep : List Char) : Nat → List Char → List Char → List (List Char)
  | 0, l, acc => [acc.reverse ++ l]
  | _ + 1, [], acc => [acc.reverse]
  | fuel + 1, c :: rest, acc =>
    if sep.isPrefixOf (c :: rest) then
      acc.reverse :: splitOnAux sep fuel ((c :: rest).drop sep.length) []
    else splitOnAux sep fuel rest (c :: acc)

/-- Python `str.split(sep)` for the nonempty separators the source uses. -/
def pySplitOn (s sep : String) : List String :=
  if sep.toList.isEmpty then [s]
  else (splitOnAux sep.toList (s.toList.length + 1) s.toList []).map String.mk

/-- Value of a decimal-digit string (Python `int` on an all-digit token). -/
def digitsVal (l : List Char) : Nat :=
  l.foldl (fun a c => a * 10 + (c.toNat - 48)) 0

/-- Code-point-lexicographic string comparison (Python `<=` on strings). -/
def charListLe : List Char → List Char → Bool
  | [], _ => true
  | _ :: _, [] => false
  | a :: moreA, b :: moreB =>
    if a = b then charListLe moreA moreB else decide (a.toNat ≤ b.toNat)

/-- Python string `<=`. -/
def pyStrLe (s t : String) : Bool :=
  charListLe s.toList t.toList

/-- Heading level extraction: the last whitespace-delimited token of the
style name, parsed as an integer when it is all digits, else 0 (the
`except` branch also yields 0 when there is no token). -/
def headingLevelOf (styleName : String) : Nat :=
  match (pySplitWs styleName).getLast? with
  | none => 0
  | some tok =>
    if tok ≠ "" ∧ tok.toList.all (·.isDigit) then digitsVal tok.toList else 0

/-- Data of an emitted paragraph/heading block. -/
structure ParaBlockData where
  id : String
  docParagraphIndex : Option Nat
  overallIndex : Nat
  isHeading : Bool
  headingLevel : Option Nat
  text : String
  styleName : String
  alignment : Option String
  pageBreakBefore : Bool
  runs : List RunInfo
deriving DecidableEq, Repr

/-- Data of an emitted table-metadata block. -/
structure TableMetaData where
  id : String
  docTableIndex : Option Nat
  overallIndex : Nat
  numRows : Nat
  numCols : Nat
  styleName : String
deriving DecidableEq, Repr

/-- Data of an emitted combined table-cell block. -/
structure CellBlockData where
  id : String
  docTableIndex : Option Nat
  rowIndex : Nat
  colIndex : Nat
  rowSpan : Nat
  colSpan : Int
  overallIndex : Nat
  text : String
  styleName : Option String
  alignment : Option String
  pageBreakBefore : Bool
  runs : List RunInfo
deriving DecidableEq, Repr

/-- One emitted ContentBlock. -/
inductive Block
  | para (d : ParaBlockData)
  | tableMeta (d : TableMetaData)
  | tableCell (d : CellBlockData)
deriving DecidableEq, Repr

/-- Build the block for a top-level paragraph (the `CT_P` branch of the
extraction loop). -/
def mkParaBlock (p : Para) (paraIdx n : Nat) : Block :=
  let isH := strStartsWith (pyLower p.styleName) "heading"
  .para
    { id := "p_block_" ++ toString n
      docParagraphIndex := some paraIdx
      overallIndex := n
      isHeading := isH
      headingLevel := if isH then some (headingLevelOf p.styleName) else none
      text := paraText p
      styleName := p.styleName
      alignment := p.alignment.map alignName
      pageBreakBefore := p.pageBreakBefore || p.runs.any (·.hasPageBreakBr)
      runs := p.runs.map extractRunInfo }

/-- Build the table-metadata block (the first block the `CT_Tbl` branch
appends). -/
def mkTableMetaBlock (t : DTable) (tblIdx : Option Nat) (n : Nat) : Block :=
  .tableMeta
    { id := "table_meta_" ++ toString n
      docTableIndex := tblIdx
      overallIndex := n
      numRows := t.rows.length
      numCols := t.colCount
      styleName := t.styleName.getD "TableGrid" }

/-- Build the combined block for one primary cell. -/
def mkCellBlock (cl : Cell) (tblIdx : Option Nat) (r c rowspan : Nat)
    (colspan : Int) (n : Nat) : Block :=
  .tableCell
    { id := "tc_block_" ++ toString n
      docTableIndex := tblIdx
      rowIndex := r
      colIndex := c
      rowSpan := rowspan
      colSpan := colspan
      overallIndex := n
      text := String.intercalate "\n" (cl.paras.map paraText)
      styleName := (cl.paras.head?).map (·.styleName)
      alignment := (cl.paras.head?).bind (fun p => p.alignment.map alignName)
      pageBreakBefore := ((cl.paras.head?).map (·.pageBreakBefore)).getD false
      runs := cl.paras.flatMap (fun p => p.runs.map extractRunInfo) }

/-- Logical column count used for the merge grid (`actual_cols` in the
source): the `tblGrid` count; when that is 0 and the table has rows, the
first row's cell count; when it is 0 and there are no rows, 1. -/
def actualCols (t : DTable) : Nat :=
  if t.colCount = 0 ∧ 0 < t.rows.length then
    ((t.rows.head?).map (fun row => row.cells.length)).getD 0
  else if t.colCount = 0 then 1
  else t.colCount

/-- An entry of the merge grid: the coordinates of the occupying primary
cell (Python stores the raw tuple, so the row may be `-1` via the
`(r_idx-1, c_idx)` fallback), or the `'INDEX_ERROR'` marker. -/
inductive Occ
  | coord (r c : Int)
  | indexError
deriving DecidableEq, Repr

/-- The merge grid as a map from (row, column) to its occupier. -/
def Grid : Type := Nat → Nat → Option Occ

/-- Pointwise grid update. -/
def gridSet (g : Grid) (i j : Nat) (v : Occ) : Grid :=
  fun a b => if a = i ∧ b = j then some v else g a b

/-- State threaded through the per-table cell loop: the occupancy grid, the
blocks appended so far, and the shared block counter. -/
structure TState where
  grid : Grid
  blocks : List Block
  counter : Nat

/-- Effective `w:val` of the cell's vertical-merge element
(`v_merge_val` in the source). -/
def vMergeValOf (cl : Cell) : Option String :=
  match cl.vMergeElem with
  | none => none
  | some v => v

/-- Rowspan scan (`for rn_idx in range(r_idx + 1, ...)`): starting at row
`rn` with `fuel` rows left, count rows whose cell at column `c` has a
vertical-merge element whose value is not `"restart"`, stopping at the
first row that does not (or at a missing cell, the IndexError break). -/
def scanCont (t : DTable) (c : Nat) : Nat → Nat → Nat
  | _, 0 => 0
  | rn, fuel + 1 =>
    match getCell t rn c with
    | none => 0
    | some cl =>
      if cl.vMergeElem.isSome ∧ vMergeValOf cl ≠ some "restart" then
        1 + scanCont t c (rn + 1) fuel
      else 0

/-- Mark every in-bounds grid position covered by the primary cell at
`(r, c)` with span `rowspan × colspan` as occupied by `(r, c)`; positions
already occupied keep their earlier occupier; out-of-bounds positions are
skipped (logged and truncated in the source). -/
def markSpan (g : Grid) (R C r c rowspan : Nat) (colspan : Int) : Grid :=
  (List.range rowspan).foldl
    (fun g ro =>
      (List.range colspan.toNat).foldl
        (fun g co =>
          if r + ro < R ∧ c + co < C then
            match g (r + ro) (c + co) with
            | none => gridSet g (r + ro) (c + co) (Occ.coord r c)
            | some _ => g
          else g)
        g)
    g

/-- Process one logical grid position `(r, c)` of a table: skip it when
already occupied; mark `'INDEX_ERROR'` when the cell cannot be accessed;
record the occupier from the row above for a vertical-merge continuation;
otherwise treat the cell as primary, compute its spans, mark the covered
grid positions and emit its combined block. -/
def processCell (t : DTable) (tblIdx : Option Nat) (C R : Nat)
    (st : TState) (r c : Nat) : TState :=
  match st.grid r c with
  | some _ => st
  | none =>
    match getCell t r c with
    | none => { st with grid := gridSet st.grid r c Occ.indexError }
    | some cl =>
      let v := vMergeValOf cl
      if v ≠ none ∧ v ≠ some "restart" then
        let above :=
          if 0 < r ∧ (st.grid (r - 1) c).isSome ∧
              st.grid (r - 1) c ≠ some Occ.indexError then
            st.grid (r - 1) c
          else none
        { st with
            grid := fun a b =>
              if a = r ∧ b = c then
                some (above.getD (Occ.coord ((r : Int) - 1) (c : Int)))
              else st.grid a b }
      else
        let colspan : Int := cl.gridSpanVal.getD 1
        let rowspan : Nat :=
          if v = some "restart" then 1 + scanCont t c (r + 1) (R - (r + 1))
          else 1
        { grid := markSpan st.grid R C r c rowspan colspan
          blocks := st.blocks ++ [mkCellBlock cl tblIdx r c rowspan colspan st.counter]
          counter := st.counter + 1 }

/-- Process one row of the merge grid: all columns of row `r`, ascending. -/
def processRow (t : DTable) (tblIdx : Option Nat) (C R : Nat)
    (st : TState) (r : Nat) : TState :=
  (List.range C).foldl (fun st c => processCell t tblIdx C R st r c) st

/-- Run the merge-grid reconstruction over all grid positions of a table,
row index ascending then column index ascending, starting from an empty
grid and block counter `counter`. -/
def runTableCells (t : DTable) (tblIdx : Option Nat) (counter : Nat) : TState :=
  let C := actualCols t
  let R := t.rows.length
  (List.range R).foldl (processRow t tblIdx C R)
    { grid := fun _ _ => none, blocks := [], counter := counter }

/-- Process one table body node: its metadata block followed by the blocks
of its primary cells; returns the emitted blocks and the updated counter. -/
def processTableNode (t : DTable) (tblIdx : Option Nat) (counter : Nat) :
    List Block × Nat :=
  let meta := mkTableMetaBlock t tblIdx counter
  let st := runTableCells t tblIdx (counter + 1)
  (meta :: st.blocks, st.counter)

/-- State of the body walk: emitted blocks, shared block counter, and the
running paragraph / table original indices (the element-to-index maps). -/
structure WalkState where
  blocks : List Block
  counter : Nat
  paraIdx : Nat
  tblIdx : Nat

/-- The extraction operation `get_structured_document_content_internal`:
walk the body children in order, emitting paragraph/heading blocks,
table-metadata blocks and combined table-cell blocks with one shared
monotonically increasing counter; children of other types are skipped. -/
def get_structured_document_content_internal (d : Doc) : List Block :=
  (d.body.foldl
    (fun (st : WalkState) node =>
      match node with
      | .para p =>
        { blocks := st.blocks ++ [mkParaBlock p st.paraIdx st.counter]
          counter := st.counter + 1
          paraIdx := st.paraIdx + 1
          tblIdx := st.tblIdx }
      | .table t =>
        let res := processTableNode t (some st.tblIdx) st.counter
        { blocks := st.blocks ++ res.1
          counter := res.2
          paraIdx := st.paraIdx
          tblIdx := st.tblIdx + 1 }
      | .other => st)
    { blocks := [], counter := 0, paraIdx := 0, tblIdx := 0 }).blocks

/-- Responses of the direct HTTP endpoints, one constructor per distinct
`JSONResponse` the handlers can return (success, the validation failures,
and the IndexError/ValueError catch-all). -/
inductive EditResp
  | success
  | errNewTextMissing
  | errNeitherLocator
  | errBothLocators
  | errNoDocument
  | errIndexError
  | errValueError
deriving DecidableEq, Repr

/-- The HTTP extraction endpoint `http_get_structured_content`: reports an
error when no document is open, otherwise returns the extracted blocks; the
stored current document is left as it was. -/
def http_get_structured_content (d : Option Doc) :
    (EditResp × List Block) × Option Doc :=
  match d with
  | none => ((.errNoDocument, []), none)
  | some doc => ((.success, get_structured_document_content_internal doc), some doc)

/-- Python hex-digit test used by the color decoder
(`c in '0123456789abcdefABCDEF'`). -/
def isPyHexDigit (c : Char) : Bool :=
  c.isDigit || (decide ('a' ≤ c) && decide (c ≤ 'f')) || (decide ('A' ≤ c) && decide (c ≤ 'F'))

/-- Numeric value of a hex digit. -/
def hexDigitVal (c : Char) : Nat :=
  if c.isDigit then c.toNat - 48
  else if decide ('a' ≤ c) ∧ decide (c ≤ 'f') then c.toNat - 87
  else if decide ('A' ≤ c) ∧ decide (c ≤ 'F') then c.toNat - 55
  else 0

/-- Value of a hex-digit character list. -/
def hexValChars (l : List Char) : Nat :=
  l.foldl (fun acc c => acc * 16 + hexDigitVal c) 0

/-- Model of Python `int(s, 16)`: strip whitespace, optional sign, optional
`0x`/`0X`, then hex digits; `none` models the `ValueError`. -/
def pyIntHex (s : String) : Option Int :=
  let l := trimChars s.toList
  let signNeg : Bool := match l with | '-' :: _ => true | _ => false
  let l1 := match l with
    | '-' :: rest => rest
    | '+' :: rest => rest
    | _ => l
  let l2 := match l1 with
    | '0' :: 'x' :: rest => rest
    | '0' :: 'X' :: rest => rest
    | _ => l1
  if l2 ≠ [] ∧ l2.all isPyHexDigit then
    some (if signNeg then -(hexValChars l2 : Int) else (hexValChars l2 : Int))
  else none

/-- Uppercase hex digit character. -/
def hexUpperChar (k : Nat) : Char :=
  if k < 10 then Char.ofNat (48 + k) else Char.ofNat (55 + k % 16)

/-- Two-digit uppercase hex rendering of a byte (`'%02X'`). -/
def toHex2 (n : Nat) : String :=
  String.mk [hexUpperChar (n / 16 % 16), hexUpperChar (n % 16)]

/-- Parse of the parenthesized `"RGBColor(...)"` color form: the string is
stripped of that prefix and of every `")"`, split on `","`, and its first
three components are hex-parsed left to right; a hex-parse failure or an
out-of-range byte is a caught `ValueError` (`ok none`, skip); a missing
second or third component is an uncaught `IndexError` (`error`), since the
source only catches `ValueError` around the color application. -/
def rgbTripleParse (colorStr : String) : Except Unit (Option (Nat × Nat × Nat)) :=
  let parts := pySplitOn (pyReplace (pyReplace colorStr "RGBColor(" "") ")" "") ","
  match pyIntHex (pyTrim (parts.headD "")) with
  | none => .ok none
  | some v0 =>
    match parts.get? 1 with
    | none => .error ()
    | some p1 =>
      match pyIntHex (pyTrim p1) with
      | none => .ok none
      | some v1 =>
        match parts.get? 2 with
        | none => .error ()
        | some p2 =>
          match pyIntHex (pyTrim p2) with
          | none => .ok none
          | some v2 =>
            if 0 ≤ v0 ∧ v0 ≤ 255 ∧ 0 ≤ v1 ∧ v1 ≤ 255 ∧ 0 ≤ v2 ∧ v2 ≤ 255 then
              .ok (some (v0.toNat, v1.toNat, v2.toNat))
            else .ok none

/-- Apply a parsed (or skipped, or crashing) color to a run. -/
def applyColorCore (run : Run) (colorStr : String) : Run × Bool :=
  if strStartsWith colorStr "RGBColor(" then
    match rgbTripleParse colorStr with
    | .error _ => (run, true)
    | .ok none => (run, false)
    | .ok (some v) =>
      let hex := toHex2 v.1 ++ toHex2 v.2.1 ++ toHex2 v.2.2
      ({ run with colorRgb := some hex }, false)
  else if colorStr.length = 6 ∧ colorStr.toList.all isPyHexDigit then
    ({ run with colorRgb := some (pyUpper colorStr) }, false)
  else (run, false)

/-- Decode one original-run record onto a freshly added run carrying `text`
(the per-run body of `_apply_formatting_to_paragraph`): booleans are set
directly; a truthy font name is set as primary font and as the East-Asian
override; a truthy size is set in points; a truthy color string is decoded
by `applyColorCore`.  The flag reports the uncaught color `IndexError`;
the run component is the run's state at return or at raise time (the color
is the last attribute touched, so the two coincide except for `colorRgb`). -/
def applyRunInfoCore (i : RunInfo) (text : String) : Run × Bool :=
  let run : Run := { text := text }
  let run := { run with bold := some i.bold, italic := some i.italic, underline := some i.underline }
  let run :=
    match i.fontName with
    | some f => if f ≠ "" then { run with fontName := some f, eastAsiaFont := some f } else run
    | none => run
  let run :=
    match i.fontSizePt with
    | some v => if v ≠ 0 then { run with sizePt := some v } else run
    | none => run
  match i.fontColorRgb with
  | some cstr => if cstr ≠ "" then applyColorCore run cstr else (run, false)
  | none => (run, false)

/-- The run produced for a record when its decode does not raise. -/
def applyRunInfoRun (i : RunInfo) (text : String) : Run :=
  (applyRunInfoCore i text).1

/-- A record whose color decode does not raise the uncaught `IndexError`. -/
def runInfoSafe (i : RunInfo) : Bool :=
  !(applyRunInfoCore i i.text).2

/-- Reapply loop of the text-unchanged branch: add one run per record, in
order, stopping (with the partial run list) when a record's color decode
raises. -/
def addRunsLoop : List RunInfo → List Run → List Run × Bool
  | [], acc => (acc, false)
  | i :: rest, acc =>
    let rc := applyRunInfoCore i i.text
    if rc.2 then (acc ++ [rc.1], true) else addRunsLoop rest (acc ++ [rc.1])

/-- Reconstructed original full text: the concatenation, in order, of the
supplied records' text fields. -/
def originalFullText (infos : List RunInfo) : String :=
  String.join (infos.map (·.text))

/-- Style-override step of `_apply_formatting_to_paragraph`: a truthy style
name is applied only when it is known to the document (unknown names are
logged and skipped, never failing the operation). -/
def applyStyleOverride (styles : List String) (p : Para)
    (style? : Option String) : Para :=
  match style? with
  | some s =>
    if s ≠ "" then (if s ∈ styles then { p with styleName := s } else p) else p
  | none => p

/-- Alignment-override step: a truthy value is upper-cased and mapped
through the six-value reverse map; unknown values are logged and skipped. -/
def applyAlignOverride (p : Para) (align? : Option String) : Para :=
  match align? with
  | some a =>
    if a ≠ "" then
      match alignFromString (pyUpper a) with
      | some v => { p with alignment := some v }
      | none => p
    else p
  | none => p

/-- Page-break-override step: `some true` / `some false` set the flag,
`none` leaves the current state untouched. -/
def applyPbfOverride (p : Para) (pbf? : Option Bool) : Para :=
  match pbf? with
  | some true => { p with pageBreakBefore := true }
  | some false => { p with pageBreakBefore := false }
  | none => p

/-- The three override steps in the source's order. -/
def applyOverrides (styles : List String) (p : Para)
    (style? align? : Option String) (pbf? : Option Bool) : Para :=
  applyPbfOverride (applyAlignOverride (applyStyleOverride styles p style?) align?) pbf?

/-- The helper `_apply_formatting_to_paragraph`: clear every run, then
repopulate per the documented policy — when the new text equals the
reconstructed original full text and at least one record was supplied,
reapply every record as an independent run; otherwise emit the whole new
text as a single run carrying the first record's formatting (or no
formatting when no records were supplied) — then apply the style /
alignment / page-break overrides.  An uncaught color `IndexError` aborts
with the paragraph in its partially repopulated state. -/
def applyFormattingToParagraph (styles : List String) (p : Para)
    (newText : String) (infos : List RunInfo)
    (style? align? : Option String) (pbf? : Option Bool) : Except Para Para :=
  let p0 : Para := { p with runs := [] }
  if newText = originalFullText infos ∧ infos ≠ [] then
    let rb := addRunsLoop infos []
    if rb.2 then .error { p0 with runs := rb.1 }
    else .ok (applyOverrides styles { p0 with runs := rb.1 } style? align? pbf?)
  else
    match infos with
    | [] => .ok (applyOverrides styles { p0 with runs := [{ text := newText }] } style? align? pbf?)
    | i :: _ =>
      let rc := applyRunInfoCore i newText
      if rc.2 then .error { p0 with runs := [rc.1] }
      else .ok (applyOverrides styles { p0 with runs := [rc.1] } style? align? pbf?)

/-- Replace the `k`-th paragraph node of a body. -/
def setParaInBody : List BodyNode → Nat → Para → List BodyNode
  | [], _, _ => []
  | .para _ :: rest, 0, p => .para p :: rest
  | .para q :: rest, Nat.succ k, p => .para q :: setParaInBody rest k p
  | node :: rest, k, p => node :: setParaInBody rest k p

/-- Replace the `k`-th table node of a body. -/
def setTableInBody : List BodyNode → Nat → DTable → List BodyNode
  | [], _, _ => []
  | .table _ :: rest, 0, t => .table t :: rest
  | .table u :: rest, Nat.succ k, t => .table u :: setTableInBody rest k t
  | node :: rest, k, t => node :: setTableInBody rest k t

/-- Replace the `k`-th top-level paragraph of a document. -/
def setParaAt (d : Doc) (k : Nat) (p : Para) : Doc :=
  { d with body := setParaInBody d.body k p }

/-- Replace the `k`-th table of a document. -/
def setTableAt (d : Doc) (k : Nat) (t : DTable) : Doc :=
  { d with body := setTableInBody d.body k t }

/-- Replace the paragraph list of cell `(r, c)` of a table. -/
def setCellParas (t : DTable) (r c : Nat) (ps : List Para) : DTable :=
  match t.rows.get? r with
  | none => t
  | some row =>
    match row.cells.get? c with
    | none => t
    | some cl =>
      { t with rows := t.rows.set r { cells := row.cells.set c { cl with paras := ps } } }

/-- Error kinds of the internal editor, per the section-7 taxonomy:
`IndexError` surfaces as IndexOutOfRange and `ValueError` as
InvalidArgument / PreconditionFailed. -/
inductive EKind
  | indexError
  | valueError
deriving DecidableEq, Repr

/-- The paragraph created by `cell.add_paragraph()`: empty, default style. -/
def freshCellPara : Para := { runs := [], styleName := "Normal" }

/-- The internal block editor `edit_block_content_internal`.  A raised
exception is `Except.error (kind, docAtRaiseTime)`: the second component is
the document tree as it stands when the exception escapes, so an error
whose document equals the input is a raise that precedes every destructive
step.  Dispatch: a supplied paragraph index selects the top-level branch
(whatever else is supplied); otherwise a full (table, row, col) triple
selects the cell branch; otherwise `ValueError`.  Both branches validate
indices (and, in the cell branch, resolve the cell) before clearing. -/
def edit_block_content_internal (d : Doc) (newText : String)
    (runsInfo : List RunInfo)
    (pIdx? tIdx? rIdx? cIdx? : Option Int)
    (style? align? : Option String) (pbf? : Option Bool) :
    Except (EKind × Doc) Doc :=
  match pIdx? with
  | some i =>
    if 0 ≤ i ∧ i < (d.paragraphs.length : Int) then
      match d.paragraphs.get? i.toNat with
      | some p =>
        match applyFormattingToParagraph d.styles p newText runsInfo style? align? pbf? with
        | .ok p2 => .ok (setParaAt d i.toNat p2)
        | .error pBad => .error (.indexError, setParaAt d i.toNat pBad)
      | none => .error (.indexError, d)
    else .error (.indexError, d)
  | none =>
    match tIdx?, rIdx?, cIdx? with
    | some ti, some ri, some ci =>
      if 0 ≤ ti ∧ ti < (d.tables.length : Int) then
        match d.tables.get? ti.toNat with
        | some tbl =>
          if 0 ≤ ri ∧ ri < (tbl.rows.length : Int) then
            if 0 ≤ ci ∧ ci < (tbl.colCount : Int) then
              match getCell tbl ri.toNat ci.toNat with
              | none => .error (.indexError, d)
              | some _ =>
                match applyFormattingToParagraph d.styles freshCellPara newText
                    runsInfo style? align? pbf? with
                | .ok p2 =>
                  .ok (setTableAt d ti.toNat (setCellParas tbl ri.toNat ci.toNat [p2]))
                | .error pBad =>
                  .error (.indexError,
                    setTableAt d ti.toNat (setCellParas tbl ri.toNat ci.toNat [pBad]))
            else .error (.indexError, d)
          else .error (.indexError, d)
        | none => .error (.indexError, d)
      else .error (.indexError, d)
    | _, _, _ => .error (.valueError, d)

/-- A decoded `/api/edit_block_content` request body.  `none` at the outer
level of `pageBreakBefore` models an absent key (so that
`data.get("original_page_break_before", False)` yields `False`), while
`some none` models an explicit JSON `null`. -/
structure EditRequest where
  newText : Option String := none
  runsInfo : Option (List RunInfo) := none
  styleName : Option String := none
  alignment : Option String := none
  pageBreakBefore : Option (Option Bool) := none
  docParagraphIndex : Option Int := none
  docTableIndex : Option Int := none
  rowIndex : Option Int := none
  colIndex : Option Int := none
deriving Repr

/-- A paragraph locator is supplied (`is_paragraph_edit`). -/
def isParaLocator (req : EditRequest) : Bool :=
  req.docParagraphIndex.isSome

/-- A complete table-cell locator is supplied (`is_table_cell_edit`). -/
def isCellLocator (req : EditRequest) : Bool :=
  req.docTableIndex.isSome && req.rowIndex.isSome && req.colIndex.isSome

/-- The HTTP endpoint `http_edit_block_content`: validate `new_text`, then
the locator combination, then that a document is open, then run the
internal editor, mapping `IndexError` / `ValueError` to 400 responses.  The
second component is the stored current document after the call (the
partially edited tree when the internal editor raised mid-edit). -/
def http_edit_block_content (req : EditRequest) (d? : Option Doc) :
    EditResp × Option Doc :=
  match req.newText with
  | none => (.errNewTextMissing, d?)
  | some ntext =>
    if !isParaLocator req && !isCellLocator req then (.errNeitherLocator, d?)
    else if isParaLocator req && isCellLocator req then (.errBothLocators, d?)
    else
      match d? with
      | none => (.errNoDocument, none)
      | some d =>
        match edit_block_content_internal d ntext (req.runsInfo.getD [])
            req.docParagraphIndex req.docTableIndex req.rowIndex req.colIndex
            req.styleName req.alignment (req.pageBreakBefore.getD (some false)) with
        | .ok d2 => (.success, some d2)
        | .error e =>
          ((match e.1 with
            | .indexError => .errIndexError
            | .valueError => .errValueError), some e.2)

/-- Substring containment, modelling Python's `in` on strings. -/
def strContains (hay pat : String) : Bool :=
  decide (pat.toList <:+: hay.toList)

/-- Error of the section replacer. -/
inductive RErr
  | notFound
deriving DecidableEq, Repr

/-- Modelled from the spec: the Style-Propagating Section Replacer
(spec section 4.6) is not present in `src/server.py`; only this repository's
spec describes it.  Title anchor resolution: the index of the first
top-level paragraph whose text contains the title substring. -/
def findTitleAnchor (d : Doc) (title : String) : Option Nat :=
  d.paragraphs.findIdx? (fun p => strContains (paraText p) title)

/-- Modelled from the spec: keyword anchor resolution — the index of the
first top-level paragraph containing the keyword. -/
def findKeywordAnchor (d : Doc) (kw : String) : Option Nat :=
  d.paragraphs.findIdx? (fun p => strContains (paraText p) kw)

/-- Modelled from the spec: region end for a title anchor — the next
paragraph whose style name starts with `"Heading"` and is lexically at most
the anchor's style name (a raw string comparison, per the spec's section 9
note), else the end of the document. -/
def sectionEndByTitle (paras : List Para) (anchorIdx : Nat)
    (anchorStyle : String) : Nat :=
  match (paras.drop (anchorIdx + 1)).findIdx?
      (fun p => strStartsWith p.styleName "Heading" && pyStrLe p.styleName anchorStyle) with
  | some k => anchorIdx + 1 + k
  | none => paras.length

/-- Modelled from the spec: the per-position formatting record captured
from an existing paragraph (style, alignment, page-break, and the first
run's formatting). -/
structure Captured where
  styleName : Option String := none
  alignment : Option Align := none
  pageBreakBefore : Bool := false
  firstRun : Option RunInfo := none
deriving DecidableEq, Repr

/-- Capture record of one paragraph. -/
def captureOf (p : Para) : Captured :=
  { styleName := some p.styleName
    alignment := p.alignment
    pageBreakBefore := p.pageBreakBefore
    firstRun := (p.runs.head?).map extractRunInfo }

/-- Modelled from the spec: stretch a captured-record list to length `n` by
duplicating the last record (a null/default record throughout when the
region was empty). -/
def stretchTo (l : List Captured) (n : Nat) : List Captured :=
  if n ≤ l.length then l.take n
  else
    match l.getLast? with
    | none => List.replicate n {}
    | some last => l ++ List.replicate (n - l.length) last

/-- Modelled from the spec: build one replacement paragraph — the captured
style / alignment / page-break, and a single run carrying the item's full
text with the first captured run's formatting (the codec decode, which per
spec section 4.4 never raises for a malformed color). -/
def buildNewPara (item : String) (cap : Captured) : Para :=
  { runs := [match cap.firstRun with
             | none => { text := item }
             | some ri => (applyRunInfoCore ri item).1]
    styleName := cap.styleName.getD "Normal"
    alignment := cap.alignment
    pageBreakBefore := cap.pageBreakBefore }

/-- Modelled from the spec: body splice — walking the body with a running
top-level paragraph index, drop every paragraph with index in
`[start, endIdx)`, and insert the new nodes at the original location of
paragraph `start` (at the end of the body when `start` is the paragraph
count). -/
def spliceGo (newNodes : List BodyNode) (start endIdx : Nat) :
    List BodyNode → Nat → List BodyNode
  | [], i => if i ≤ start then newNodes else []
  | .para p :: rest, i =>
    (if i = start then newNodes else []) ++
      (if start ≤ i ∧ i < endIdx then [] else [BodyNode.para p]) ++
      spliceGo newNodes start endIdx rest (i + 1)
  | node :: rest, i => node :: spliceGo newNodes start endIdx rest i

/-- Modelled from the spec: the shared replacement body — capture the
styles of positions `start..min(endIdx, start + len(newContent))`, stretch,
delete the region, and splice in one paragraph per new-content item with
its positionally corresponding captured formatting. -/
def applyReplacement (d : Doc) (start endIdx : Nat)
    (newContent : List String) : Doc :=
  let paras := d.paragraphs
  let caps := stretchTo
    (((paras.drop start).take (min (endIdx - start) newContent.length)).map captureOf)
    newContent.length
  let newParas := (newContent.zip caps).map (fun pc => buildNewPara pc.1 pc.2)
  { d with body := spliceGo (newParas.map .para) start endIdx d.body 0 }

/-- Modelled from the spec: the title-anchored section replacer.  Fails
with NotFound (document untouched) when no paragraph contains the title;
otherwise replaces `[start, end)` where `start` is the anchor index plus
one (or the anchor itself when the title is to be removed). -/
def replace_section_by_title (d : Doc) (title : String)
    (newContent : List String) (preserveTitle : Bool) :
    Except (RErr × Doc) Doc :=
  match findTitleAnchor d title with
  | none => .error (.notFound, d)
  | some i =>
    let paras := d.paragraphs
    let anchorStyle := ((paras.get? i).map (·.styleName)).getD "Normal"
    let endIdx := sectionEndByTitle paras i anchorStyle
    let start := if preserveTitle then i + 1 else i
    .ok (applyReplacement d start endIdx newContent)

/-- Modelled from the spec: the keyword-anchored section replacer.  Fails
with NotFound when no paragraph contains the keyword; otherwise replaces
`[i - range, i + range + 1)` clamped to document bounds. -/
def replace_section_by_keyword (d : Doc) (kw : String) (rng : Nat)
    (newContent : List String) : Except (RErr × Doc) Doc :=
  match findKeywordAnchor d kw with
  | none => .error (.notFound, d)
  | some i =>
    let paras := d.paragraphs
    .ok (applyReplacement d (i - rng) (min (i + rng + 1) paras.length) newContent)

/-- An HTTP response that reports an invalid-argument failure (a 400
response issued by the request validation, before any document access). -/
def isInvalidArgumentResp : EditResp → Bool
  | .errNewTextMissing => true
  | .errNeitherLocator => true
  | .errBothLocators => true
  | _ => false

/-- Page-break-before field of a block, when the block carries one. -/
def blockPBF : Block → Option Bool
  | .para d => some d.pageBreakBefore
  | .tableCell d => some d.pageBreakBefore
  | .tableMeta _ => none

/-- The locator is out of range, transcribing the bound checks of
`edit_block_content_internal`: a supplied paragraph index outside
`[0, len(paragraphs))`, or (with no paragraph index) a complete cell
locator whose table index is outside `[0, len(tables))`, or whose row index
is outside `[0, len(rows))`, or whose column index is outside
`[0, len(columns))` of the selected table. -/
def locatorOutOfRange (d : Doc) (pIdx? tIdx? rIdx? cIdx? : Option Int) : Prop :=
  (∃ i, pIdx? = some i ∧ (i < 0 ∨ (d.paragraphs.length : Int) ≤ i)) ∨
  (pIdx? = none ∧ ∃ ti ri ci, tIdx? = some ti ∧ rIdx? = some ri ∧ cIdx? = some ci ∧
    (ti < 0 ∨ (d.tables.length : Int) ≤ ti ∨
     ∃ tbl, d.tables.get? ti.toNat = some tbl ∧
       (ri < 0 ∨ (tbl.rows.length : Int) ≤ ri ∨ ci < 0 ∨ (tbl.colCount : Int) ≤ ci)))

/-- C10: the extraction operation is read-only — it returns the stored
document unchanged, and re-running it on that returned state yields an
equal ordered block list.  (In this embedding the extraction is a pure
function of the document: the source performs no mutating call during
`get_structured_document_content_internal`.) -/
theorem claim_C10 (d : Option Doc) :
    (http_get_structured_content d).2 = d ∧
    (http_get_structured_content d).1.2 =
      (http_get_structured_content (http_get_structured_content d).2).1.2 := by
  cases d <;> exact ⟨rfl, rfl⟩

/-- C2: supplying both a paragraph locator and a complete cell locator, or
neither, makes the block-edit endpoint fail with an invalid-argument
response, and the stored document is not modified. -/
theorem claim_C2 (req : EditRequest) (d : Option Doc)
    (h : (isParaLocator req = true ∧ isCellLocator req = true) ∨
         (isParaLocator req = false ∧ isCellLocator req = false)) :
    isInvalidArgumentResp (http_edit_block_content req d).1 = true ∧
    (http_edit_block_content req d).2 = d := by
  unfold http_edit_block_content
  cases hnt : req.newText with
  | none => exact ⟨rfl, rfl⟩
  | some ntext =>
    rcases h with ⟨h1, h2⟩ | ⟨h1, h2⟩ <;> simp [h1, h2, isInvalidArgumentResp]

/-- C2 witness: a request carrying both locator kinds is rejected with an
invalid-argument response and the document is untouched. -/
theorem claim_C2_witness :
    isInvalidArgumentResp
      (http_edit_block_content
        { newText := some "x", docParagraphIndex := some 0,
          docTableIndex := some 0, rowIndex := some 0, colIndex := some 0 }
        (some { body := [] })).1 = true ∧
    (http_edit_block_content
      { newText := some "x", docParagraphIndex := some 0,
        docTableIndex := some 0, rowIndex := some 0, colIndex := some 0 }
      (some { body := [] })).2 = some { body := [] } :=
  claim_C2 _ _ (Or.inl ⟨by decide, by decide⟩)

/-- C9: a block edit whose locator is out of range raises IndexOutOfRange
with the document exactly as it was handed in — the bound checks precede
every destructive step, so no run or paragraph node has been removed. -/
theorem claim_C9 (d : Doc) (newText : String) (runsInfo : List RunInfo)
    (pIdx? tIdx? rIdx? cIdx? : Option Int) (st? al? : Option String)
    (pb? : Option Bool)
    (h : locatorOutOfRange d pIdx? tIdx? rIdx? cIdx?) :
    edit_block_content_internal d newText runsInfo pIdx? tIdx? rIdx? cIdx?
      st? al? pb? = .error (.indexError, d) := by
  rcases h with ⟨i, hp, hout⟩ | ⟨hp, ti, ri, ci, ht, hr, hc, hrest⟩
  · unfold edit_block_content_internal
    rw [hp]
    have : ¬(0 ≤ i ∧ i < (d.paragraphs.length : Int)) := by omega
    simp [this]
  · unfold edit_block_content_internal
    rw [hp, ht, hr, hc]
    by_cases hti : 0 ≤ ti ∧ ti < (d.tables.length : Int)
    · rcases hrest with h1 | h1 | ⟨tbl, htbl, hrow⟩
      · omega
      · omega
      · simp only [hti, if_true, htbl]
        by_cases hri : 0 ≤ ri ∧ ri < (tbl.rows.length : Int)
        · have hci : ¬(0 ≤ ci ∧ ci < (tbl.colCount : Int)) := by
            rcases hrow with h2 | h2 | h2 | h2 <;> omega
          simp [hri, hci]
        · simp [hri]
    · simp [hti]

/-- C9 witness: editing top-level paragraph index 3 of a one-paragraph
document raises IndexOutOfRange and leaves the document unchanged. -/
theorem claim_C9_witness :
    edit_block_content_internal { body := [.para {}] } "x" [] (some 3)
      none none none none none none =
      .error (.indexError, { body := [.para {}] }) :=
  claim_C9 _ _ _ _ _ _ _ _ _ _ (Or.inl ⟨3, rfl, by decide⟩)

/-- Document used to exhibit the C3 divergence. -/
def docC3 : Doc :=
  { body := [.para { runs := [{ text := "hi" }], pageBreakBefore := true }] }

/-- Request used to exhibit the C3 divergence: no
`original_page_break_before` key is supplied. -/
def reqC3 : EditRequest := { newText := some "hi", docParagraphIndex := some 0 }

/-- C3: divergence at the failing input.  The target paragraph has
page-break-before set; the edit request omits the override entirely; the
claim says the state must be untouched, but the endpoint succeeds and the
flag ends up cleared, because `data.get("original_page_break_before",
False)` turns an absent override into an explicit `False`. -/
theorem claim_C3 :
    docC3.paragraphs.map (fun p => p.pageBreakBefore) = [true] ∧
    reqC3.pageBreakBefore = none ∧
    (http_edit_block_content reqC3 (some docC3)).1 = .success ∧
    ((http_edit_block_content reqC3 (some docC3)).2.map
      (fun d => d.paragraphs.map (fun p => p.pageBreakBefore))) = some [false] := by
  exact ⟨rfl, rfl, rfl, rfl⟩

/-- Helper for C3 context: the overrides step itself is three-state — with
no override (`none`) it leaves the paragraph's page-break-before flag
untouched, and an explicit boolean sets it. -/
theorem applyOverrides_pbf (styles : List String) (p : Para)
    (st? al? : Option String) :
    (applyOverrides styles p st? al? none).pageBreakBefore = p.pageBreakBefore ∧
    (∀ b, (applyOverrides styles p st? al? (some b)).pageBreakBefore = b) := by
  have hstyle : ∀ q, (applyStyleOverride styles q st?).pageBreakBefore =
      q.pageBreakBefore := by
    intro q
    unfold applyStyleOverride
    cases st? with
    | none => rfl
    | some s =>
      dsimp only
      split
      · split <;> rfl
      · rfl
  have halign : ∀ q, (applyAlignOverride q al?).pageBreakBefore =
      q.pageBreakBefore := by
    intro q
    unfold applyAlignOverride
    cases al? with
    | none => rfl
    | some a =>
      dsimp only
      split
      · split <;> rfl
      · rfl
  constructor
  · unfold applyOverrides applyPbfOverride
    rw [halign, hstyle]
  · intro b
    unfold applyOverrides applyPbfOverride
    cases b <;> rfl

/-- Paragraph used to exhibit the C5 divergence: no explicit page-break
property, but a run carrying a page-type break marker. -/
def paraC5 : Para := { runs := [{ text := "x", hasPageBreakBr := true }] }

/-- One-row, one-column table whose only cell holds `paraC5`. -/
def tblC5 : DTable :=
  { rows := [{ cells := [{ paras := [paraC5] }] }], colCount := 1 }

/-- Document used to exhibit the C5 divergence: the same paragraph once
inside a table cell and once at top level. -/
def docC5 : Doc := { body := [.table tblC5, .para paraC5] }

/-- C5: divergence at the failing input.  For the identical paragraph
content (explicit property unset, run-level page-type break present), the
top-level paragraph block reports page-break-before `true` (the two
representations are OR'ed) but the table-cell-combined block reports
`false`: the cell path reads only the first paragraph's explicit property
and never ORs in the run-level break markers. -/
theorem claim_C5 :
    (get_structured_document_content_internal docC5).map blockPBF =
      [none, some false, some true] := by
  exact rfl

/-- Table used for the C8 counterexample: zero column definitions and a
single row with zero cells. -/
def tC8 : DTable := { rows := [{ cells := [] }], colCount := 0 }

/-- C8 counterexample: with zero column definitions and a first row of
zero cells, the computed logical column count is 0, not the 1 the claim
requires for the "still 0" case. -/
theorem claim_C8_counterexample :
    tC8.colCount = 0 ∧ tC8.rows.length = 1 ∧
    tC8.rows.map (fun row => row.cells.length) = [0] ∧
    actualCols tC8 = 0 ∧ actualCols tC8 ≠ 1 := by
  exact ⟨rfl, rfl, rfl, rfl, by decide⟩

/-- C8 as amended: the logical column count is the column-definition
count; when that is 0 and the table has at least one row it is the first
row's cell count (even when that is itself 0); the fallback to 1 happens
only when the count is 0 and the table has no rows.  A table with zero
rows yields only its TableMetadata block, with the counter advanced once. -/
theorem claim_C8_amended (t : DTable) :
    (t.colCount ≠ 0 → actualCols t = t.colCount) ∧
    (t.colCount = 0 → ∀ row rest, t.rows = row :: rest →
      actualCols t = row.cells.length) ∧
    (t.colCount = 0 → t.rows = [] → actualCols t = 1) ∧
    (t.rows = [] → ∀ tblIdx n,
      processTableNode t tblIdx n = ([mkTableMetaBlock t tblIdx n], n + 1)) := by
  refine ⟨fun h => ?_, fun h row rest hrows => ?_, fun h hrows => ?_,
    fun hrows tblIdx n => ?_⟩
  · unfold actualCols
    simp [h]
  · unfold actualCols
    rw [hrows]
    simp [h]
  · unfold actualCols
    rw [hrows]
    simp [h]
  · unfold processTableNode runTableCells
    rw [hrows]
    rfl

/-- C8 amended witness: the zero-rows fallback gives 1 and yields only the
metadata block; a nonzero column-definition count is used directly. -/
theorem claim_C8_amended_witness :
    actualCols { rows := [], colCount := 0 } = 1 ∧
    processTableNode { rows := [], colCount := 0 } (some 0) 0 =
      ([mkTableMetaBlock { rows := [], colCount := 0 } (some 0) 0], 1) ∧
    actualCols { rows := [], colCount := 2 } = 2 :=
  ⟨(claim_C8_amended _).2.2.1 rfl rfl,
   (claim_C8_amended _).2.2.2 rfl (some 0) 0,
   (claim_C8_amended { rows := [], colCount := 2 }).1 (by decide)⟩

/-- C4: anchor-resolution outcomes of the section replacer (spec-modelled,
see the replacer definitions).  With no matching anchor the operation
returns NotFound carrying the untouched document, so re-extraction yields
an identical block list; with a matching anchor it always succeeds,
including for empty new content. -/
theorem claim_C4 (d : Doc) (title kw : String) (rng : Nat)
    (newContent : List String) (preserveTitle : Bool) :
    (findTitleAnchor d title = none →
      replace_section_by_title d title newContent preserveTitle =
        .error (.notFound, d)) ∧
    (∀ e d2, replace_section_by_title d title newContent preserveTitle =
        .error (e, d2) →
      get_structured_document_content_internal d2 =
        get_structured_document_content_internal d) ∧
    ((findTitleAnchor d title).isSome = true →
      ∃ d2, replace_section_by_title d title newContent preserveTitle = .ok d2) ∧
    (findKeywordAnchor d kw = none →
      replace_section_by_keyword d kw rng newContent = .error (.notFound, d)) ∧
    (∀ e d2, replace_section_by_keyword d kw rng newContent = .error (e, d2) →
      get_structured_document_content_internal d2 =
        get_structured_document_content_internal d) ∧
    ((findKeywordAnchor d kw).isSome = true →
      ∃ d2, replace_section_by_keyword d kw rng newContent = .ok d2) := by
  refine ⟨fun h => ?_, fun e d2 h => ?_, fun h => ?_, fun h => ?_,
    fun e d2 h => ?_, fun h => ?_⟩
  · unfold replace_section_by_title
    rw [h]
  · unfold replace_section_by_title at h
    cases hf : findTitleAnchor d title with
    | none =>
      rw [hf] at h
      cases h
      rfl
    | some i =>
      rw [hf] at h
      cases h
  · unfold replace_section_by_title
    cases hf : findTitleAnchor d title with
    | none => rw [hf] at h; cases h
    | some i => exact ⟨_, rfl⟩
  · unfold replace_section_by_keyword
    rw [h]
  · unfold replace_section_by_keyword at h
    cases hf : findKeywordAnchor d kw with
    | none =>
      rw [hf] at h
      cases h
      rfl
    | some i =>
      rw [hf] at h
      cases h
  · unfold replace_section_by_keyword
    cases hf : findKeywordAnchor d kw with
    | none => rw [hf] at h; cases h
    | some i => exact ⟨_, rfl⟩

/-- Document used by the C4 witness. -/
def docC4 : Doc := { body := [.para { runs := [{ text := "hello world" }] }] }

/-- C4 witness: an unmatched title returns NotFound with the document
untouched; a matched title succeeds; a matched keyword succeeds even with
empty new content (pure deletion). -/
theorem claim_C4_witness :
    replace_section_by_title docC4 "zzz" ["n"] true = .error (.notFound, docC4) ∧
    (∃ d2, replace_section_by_title docC4 "hello" ["n"] false = .ok d2) ∧
    (∃ d2, replace_section_by_keyword docC4 "hello" 1 [] = .ok d2) :=
  ⟨(claim_C4 docC4 "zzz" "x" 0 ["n"] true).1 (by decide),
   (claim_C4 docC4 "hello" "x" 0 ["n"] false).2.2.1 (by decide),
   (claim_C4 docC4 "x" "hello" 1 [] true).2.2.2.2.2 (by decide)⟩

/-- The crash flag of the color decode does not depend on the run it is
applied to. -/
theorem applyColorCore_snd (r1 r2 : Run) (s : String) :
    (applyColorCore r1 s).2 = (applyColorCore r2 s).2 := by
  unfold applyColorCore
  split
  · cases rgbTripleParse s with
    | error u => rfl
    | ok o => cases o <;> rfl
  · split <;> rfl

/-- The crash flag of a record's decode does not depend on the text the
new run carries. -/
theorem applyRunInfoCore_snd (i : RunInfo) (t s : String) :
    (applyRunInfoCore i t).2 = (applyRunInfoCore i s).2 := by
  unfold applyRunInfoCore
  cases hc : i.fontColorRgb with
  | none => rfl
  | some cstr =>
    dsimp only
    split
    · exact applyColorCore_snd _ _ _
    · rfl

/-- The reapply loop over safe records never crashes and appends exactly
one decoded run per record, in order. -/
theorem addRunsLoop_safe (infos : List RunInfo)
    (hsafe : ∀ i ∈ infos, runInfoSafe i = true) (acc : List Run) :
    addRunsLoop infos acc =
      (acc ++ infos.map (fun i => applyRunInfoRun i i.text), false) := by
  induction infos generalizing acc with
  | nil => simp [addRunsLoop]
  | cons i rest ih =>
    have hi : (applyRunInfoCore i i.text).2 = false := by
      have := hsafe i (by simp)
      unfold runInfoSafe at this
      revert this
      cases (applyRunInfoCore i i.text).2 <;> simp
    unfold addRunsLoop
    simp only [hi, Bool.false_eq_true, if_false]
    rw [ih (fun j hj => hsafe j (by simp [hj]))]
    simp [applyRunInfoRun]

/-- The override steps never change the run list. -/
theorem applyOverrides_runs (styles : List String) (p : Para)
    (st? al? : Option String) (pb? : Option Bool) :
    (applyOverrides styles p st? al? pb?).runs = p.runs := by
  have hstyle : ∀ q, (applyStyleOverride styles q st?).runs = q.runs := by
    intro q
    unfold applyStyleOverride
    cases st? with
    | none => rfl
    | some s =>
      dsimp only
      split
      · split <;> rfl
      · rfl
  have halign : ∀ q, (applyAlignOverride q al?).runs = q.runs := by
    intro q
    unfold applyAlignOverride
    cases al? with
    | none => rfl
    | some a =>
      dsimp only
      split
      · split <;> rfl
      · rfl
  have hpbf : ∀ q, (applyPbfOverride q pb?).runs = q.runs := by
    intro q
    unfold applyPbfOverride
    cases pb? with
    | none => rfl
    | some b => cases b <;> rfl
  unfold applyOverrides
  rw [hpbf, halign, hstyle]

/-- Records used by the C1 counterexample: the single record's color
string is of the parenthesized form with only one component. -/
def infosC1 : List RunInfo := [{ text := "hi", fontColorRgb := some "RGBColor(12)" }]

/-- Document used by the C1 counterexample. -/
def docC1 : Doc := { body := [.para { runs := [{ text := "old" }] }] }

/-- C1 counterexample: a block edit whose new text equals the
reconstructed original text and whose single record carries the color
string `"RGBColor(12)"`.  The claim says the paragraph is repopulated with
one run per record, each carrying its own color; instead the color decode
raises an uncaught IndexError mid-repopulation, the operation fails, and
the run left in the paragraph carries no color. -/
theorem claim_C1_counterexample :
    originalFullText infosC1 = "hi" ∧ infosC1 ≠ [] ∧
    (infosC1.map (fun i => i.fontColorRgb)) = [some "RGBColor(12)"] ∧
    edit_block_content_internal docC1 "hi" infosC1 (some 0) none none none
        none none none =
      .error (.indexError,
        { body := [.para { runs :=
            [{ text := "hi", bold := some false, italic := some false,
               underline := some false }] }] }) := by
  exact ⟨rfl, by decide, rfl, rfl⟩

/-- C1 as amended: provided no supplied record's color string triggers the
parenthesized-form decode crash, the repopulation policy is exactly as
claimed — when the new text equals the reconstructed original full text
and at least one record was supplied, the paragraph ends with one run per
record, in order, each the faithful decode of its own record (own text,
bold, italic, underline, font, size, color); otherwise it ends with a
single run carrying the whole new text, decoded from the first record when
one exists and plain otherwise. -/
theorem claim_C1_amended (styles : List String) (p : Para) (newText : String)
    (infos : List RunInfo) (st? al? : Option String) (pb? : Option Bool)
    (hsafe : ∀ i ∈ infos, runInfoSafe i = true) :
    (newText = originalFullText infos ∧ infos ≠ [] →
      ∃ q, applyFormattingToParagraph styles p newText infos st? al? pb? = .ok q ∧
        q.runs = infos.map (fun i => applyRunInfoRun i i.text)) ∧
    (¬(newText = originalFullText infos ∧ infos ≠ []) →
      ∃ q, applyFormattingToParagraph styles p newText infos st? al? pb? = .ok q ∧
        q.runs = [match infos with
                  | [] => { text := newText }
                  | i :: _ => applyRunInfoRun i newText]) := by
  constructor
  · intro hcond
    unfold applyFormattingToParagraph
    rw [if_pos hcond, addRunsLoop_safe infos hsafe []]
    dsimp only
    refine ⟨_, rfl, ?_⟩
    rw [applyOverrides_runs]
    simp
  · intro hn
    unfold applyFormattingToParagraph
    rw [if_neg hn]
    cases infos with
    | nil =>
      refine ⟨_, rfl, ?_⟩
      rw [applyOverrides_runs]
    | cons i rest =>
      have hi : (applyRunInfoCore i newText).2 = false := by
        rw [applyRunInfoCore_snd i newText i.text]
        have := hsafe i (by simp)
        unfold runInfoSafe at this
        revert this
        cases (applyRunInfoCore i i.text).2 <;> simp
      simp only [hi, Bool.false_eq_true, if_false]
      refine ⟨_, rfl, ?_⟩
      rw [applyOverrides_runs]
      rfl

/-- C1 amended witness: two safe records, unchanged text, reapplied as two
runs each with its own formatting. -/
theorem claim_C1_amended_witness :
    ∃ q, applyFormattingToParagraph ["Normal"] {} "ab"
        [{ text := "a", bold := true }, { text := "b", italic := true }]
        none none none = .ok q ∧
      q.runs =
        [{ text := "a", bold := some true, italic := some false,
           underline := some false },
         { text := "b", bold := some false, italic := some true,
           underline := some false }] := by
  obtain ⟨q, hq, hruns⟩ :=
    (claim_C1_amended ["Normal"] {} "ab"
      [{ text := "a", bold := true }, { text := "b", italic := true }]
      none none none (by decide)).1 ⟨by decide, by decide⟩
  refine ⟨q, hq, ?_⟩
  rw [hruns]
  rfl

/-- Partial run of the per-table loop: rows `0..r-1` in full, then columns
`0..c-1` of row `r`, from state `st0`. -/
def processUpTo (t : DTable) (tblIdx : Option Nat) (C R : Nat)
    (st0 : TState) (r c : Nat) : TState :=
  (List.range c).foldl (fun st cc => processCell t tblIdx C R st r cc)
    ((List.range r).foldl (processRow t tblIdx C R) st0)

/-- Processing zero positions is the identity. -/
theorem processUpTo_zero (t : DTable) (tblIdx : Option Nat) (C R : Nat)
    (st0 : TState) : processUpTo t tblIdx C R st0 0 0 = st0 := rfl

/-- One more column of the current row. -/
theorem processUpTo_succ_col (t : DTable) (tblIdx : Option Nat) (C R : Nat)
    (st0 : TState) (r c : Nat) :
    processUpTo t tblIdx C R st0 r (c + 1) =
      processCell t tblIdx C R (processUpTo t tblIdx C R st0 r c) r c := by
  unfold processUpTo
  rw [List.range_succ, List.foldl_append]
  rfl

/-- Finishing row `r` is the same as starting row `r + 1`. -/
theorem processUpTo_row_end (t : DTable) (tblIdx : Option Nat) (C R : Nat)
    (st0 : TState) (r : Nat) :
    processUpTo t tblIdx C R st0 (r + 1) 0 = processUpTo t tblIdx C R st0 r C := by
  unfold processUpTo processRow
  rw [List.range_succ, List.foldl_append]
  rfl

/-- The full run is the partial run up to position `(R, 0)`. -/
theorem runTableCells_eq_upTo (t : DTable) (tblIdx : Option Nat) (n : Nat) :
    runTableCells t tblIdx n =
      processUpTo t tblIdx (actualCols t) t.rows.length
        { grid := fun _ _ => none, blocks := [], counter := n }
        t.rows.length 0 := rfl

/-- Every in-bounds grid position of a table with full rows has a cell. -/
theorem getCell_isSome (t : DTable) {R C r c : Nat} (hR : t.rows.length = R)
    (hlen : ∀ row ∈ t.rows, row.cells.length = C) (hr : r < R) (hc : c < C) :
    ∃ cl, getCell t r c = some cl := by
  have hr2 : r < t.rows.length := by omega
  have h1 : t.rows.get? r = some (t.rows.get ⟨r, hr2⟩) := List.get?_eq_get hr2
  have hclen : (t.rows.get ⟨r, hr2⟩).cells.length = C :=
    hlen _ (List.get_mem t.rows r hr2)
  have hc2 : c < (t.rows.get ⟨r, hr2⟩).cells.length := by omega
  refine ⟨(t.rows.get ⟨r, hr2⟩).cells.get ⟨c, hc2⟩, ?_⟩
  unfold getCell
  rw [h1]
  exact List.get?_eq_get hc2

/-- An already-occupied position is skipped unchanged. -/
theorem processCell_skip (t : DTable) (tblIdx : Option Nat) (C R : Nat)
    (st : TState) (r c : Nat) (o : Occ) (hg : st.grid r c = some o) :
    processCell t tblIdx C R st r c = st := by
  unfold processCell
  rw [hg]

/-- Span marking of an unmerged primary is a single guarded update. -/
theorem markSpan_one_one (g : Grid) (R C r c : Nat) :
    markSpan g R C r c 1 1 =
      if r < R ∧ c < C then
        match g r c with
        | none => gridSet g r c (.coord r c)
        | some _ => g
      else g := rfl

/-- Pointwise description of a column span mark: positions `(a, c)` with
`r ≤ a < r + m` that are in bounds and unoccupied receive the primary's
coordinates; everything else keeps its value. -/
theorem markSpan_col (g : Grid) (R C r c : Nat) : ∀ (m : Nat) (a b : Nat),
    (markSpan g R C r c m 1) a b =
      if b = c ∧ c < C ∧ r ≤ a ∧ a < r + m ∧ a < R ∧ g a b = none
      then some (.coord r c) else g a b := by
  intro m
  induction m with
  | zero =>
    intro a b
    have : ¬(b = c ∧ c < C ∧ r ≤ a ∧ a < r + 0 ∧ a < R ∧ g a b = none) := by
      rintro ⟨-, -, h1, h2, -, -⟩
      omega
    rw [if_neg this]
    rfl
  | succ m ih =>
    intro a b
    have hstep : markSpan g R C r c (m + 1) 1 =
        (if r + m < R ∧ c < C then
          match (markSpan g R C r c m 1) (r + m) c with
          | none => gridSet (markSpan g R C r c m 1) (r + m) c (.coord r c)
          | some _ => markSpan g R C r c m 1
        else markSpan g R C r c m 1) := by
      unfold markSpan
      rw [List.range_succ, List.foldl_append]
      rfl
    rw [hstep]
    have hM : (markSpan g R C r c m 1) (r + m) c = g (r + m) c := by
      rw [ih (r + m) c]
      have : ¬(c = c ∧ c < C ∧ r ≤ r + m ∧ r + m < r + m ∧ r + m < R ∧
          g (r + m) c = none) := by
        rintro ⟨-, -, -, h, -, -⟩
        omega
      rw [if_neg this]
    by_cases hb : r + m < R ∧ c < C
    · rw [if_pos hb, hM]
      cases hgv : g (r + m) c with
      | none =>
        unfold gridSet
        dsimp only
        by_cases hab : a = r + m ∧ b = c
        · rw [if_pos hab]
          have : b = c ∧ c < C ∧ r ≤ a ∧ a < r + (m + 1) ∧ a < R ∧ g a b = none := by
            refine ⟨hab.2, hb.2, by omega, by omega, by omega, ?_⟩
            rw [hab.1, hab.2]
            exact hgv
          rw [if_pos this]
        · rw [if_neg hab, ih a b]
          by_cases hc1 : b = c ∧ c < C ∧ r ≤ a ∧ a < r + m ∧ a < R ∧ g a b = none
          · rw [if_pos hc1, if_pos ⟨hc1.1, hc1.2.1, hc1.2.2.1, by omega, hc1.2.2.2.2⟩]
          · have hc2 : ¬(b = c ∧ c < C ∧ r ≤ a ∧ a < r + (m + 1) ∧ a < R ∧
                g a b = none) := by
              rintro ⟨x1, x2, x3, x4, x5, x6⟩
              exact hc1 ⟨x1, x2, x3, by
                rcases Nat.lt_succ_iff_lt_or_eq.mp (by omega : a < (r + m) + 1) with h | h
                · exact h
                · exact absurd (And.intro h x1) hab, x5, x6⟩
            rw [if_neg hc1, if_neg hc2]
      | some o =>
        dsimp only
        rw [ih a b]
        by_cases hc1 : b = c ∧ c < C ∧ r ≤ a ∧ a < r + m ∧ a < R ∧ g a b = none
        · rw [if_pos hc1, if_pos ⟨hc1.1, hc1.2.1, hc1.2.2.1, by omega, hc1.2.2.2.2⟩]
        · have hc2 : ¬(b = c ∧ c < C ∧ r ≤ a ∧ a < r + (m + 1) ∧ a < R ∧
              g a b = none) := by
            rintro ⟨x1, x2, x3, x4, x5, x6⟩
            refine hc1 ⟨x1, x2, x3, ?_, x5, x6⟩
            rcases Nat.lt_succ_iff_lt_or_eq.mp (by omega : a < (r + m) + 1) with h | h
            · exact h
            · rw [h, x1] at x6
              rw [hgv] at x6
              cases x6
          rw [if_neg hc1, if_neg hc2]
    · rw [if_neg hb, ih a b]
      by_cases hc1 : b = c ∧ c < C ∧ r ≤ a ∧ a < r + m ∧ a < R ∧ g a b = none
      · rw [if_pos hc1, if_pos ⟨hc1.1, hc1.2.1, hc1.2.2.1, by omega, hc1.2.2.2.2⟩]
      · have hc2 : ¬(b = c ∧ c < C ∧ r ≤ a ∧ a < r + (m + 1) ∧ a < R ∧
            g a b = none) := by
          rintro ⟨x1, x2, x3, x4, x5, x6⟩
          refine hc1 ⟨x1, x2, x3, ?_, x5, x6⟩
          rcases Nat.lt_succ_iff_lt_or_eq.mp (by omega : a < (r + m) + 1) with h | h
          · exact h
          · exact absurd ⟨by omega, x2⟩ hb
        rw [if_neg hc1, if_neg hc2]

/-- Processing an unvisited unmerged cell (no vertical-merge element, no
horizontal span beyond 1) marks exactly its own position and emits one
block with both spans 1. -/
theorem processCell_unmerged (t : DTable) (tblIdx : Option Nat) (C R : Nat)
    (st : TState) (r c : Nat) (cl : Cell)
    (hg : st.grid r c = none) (hcell : getCell t r c = some cl)
    (hvm : cl.vMergeElem = none)
    (hgs : cl.gridSpanVal = none ∨ cl.gridSpanVal = some 1)
    (hr : r < R) (hc : c < C) :
    processCell t tblIdx C R st r c =
      { grid := gridSet st.grid r c (.coord r c)
        blocks := st.blocks ++ [mkCellBlock cl tblIdx r c 1 1 st.counter]
        counter := st.counter + 1 } := by
  unfold processCell
  rw [hg, hcell]
  have hv : vMergeValOf cl = none := by
    unfold vMergeValOf
    rw [hvm]
  dsimp only
  rw [hv]
  have hcond : ¬((none : Option String) ≠ none ∧
      (none : Option String) ≠ some "restart") := by simp
  rw [if_neg hcond]
  have hcs : cl.gridSpanVal.getD 1 = (1 : Int) := by
    rcases hgs with h | h <;> rw [h] <;> rfl
  rw [hcs]
  have hrs : (if (none : Option String) = some "restart" then
      1 + scanCont t c (r + 1) (R - (r + 1)) else 1) = 1 := by simp
  rw [hrs, markSpan_one_one, if_pos ⟨hr, hc⟩, hg]

/-- Processing an unvisited restart cell (no horizontal span beyond 1)
marks its column segment and emits one block whose row span is 1 plus the
continuation scan. -/
theorem processCell_restart (t : DTable) (tblIdx : Option Nat) (C R : Nat)
    (st : TState) (r c : Nat) (cl : Cell)
    (hg : st.grid r c = none) (hcell : getCell t r c = some cl)
    (hvm : cl.vMergeElem = some (some "restart"))
    (hgs : cl.gridSpanVal = none ∨ cl.gridSpanVal = some 1) :
    processCell t tblIdx C R st r c =
      { grid := markSpan st.grid R C r c (1 + scanCont t c (r + 1) (R - (r + 1))) 1
        blocks := st.blocks ++
          [mkCellBlock cl tblIdx r c (1 + scanCont t c (r + 1) (R - (r + 1))) 1
            st.counter]
        counter := st.counter + 1 } := by
  unfold processCell
  rw [hg, hcell]
  have hv : vMergeValOf cl = some "restart" := by
    unfold vMergeValOf
    rw [hvm]
  dsimp only
  rw [hv]
  have hcond : ¬((some "restart" : Option String) ≠ none ∧
      (some "restart" : Option String) ≠ some "restart") := by simp
  rw [if_neg hcond]
  have hcs : cl.gridSpanVal.getD 1 = (1 : Int) := by
    rcases hgs with h | h <;> rw [h] <;> rfl
  rw [hcs]
  have hrs : (if (some "restart" : Option String) = some "restart" then
      1 + scanCont t c (r + 1) (R - (r + 1)) else 1) =
      1 + scanCont t c (r + 1) (R - (r + 1)) := by simp
  rw [hrs]

/-- Evaluation of the continuation scan: with `m` continuation cells right
below the start row and either the fuel running out exactly there or a
non-continuation cell (or missing cell) after them, the scan counts `m`. -/
theorem scanCont_eval (t : DTable) (c0 : Nat) :
    ∀ (m rn fuel : Nat), m ≤ fuel →
      (∀ j, j < m → ∃ cl, getCell t (rn + j) c0 = some cl ∧
        cl.vMergeElem.isSome = true ∧ vMergeValOf cl ≠ some "restart") →
      (m = fuel ∨ getCell t (rn + m) c0 = none ∨
        ∃ cl, getCell t (rn + m) c0 = some cl ∧
          ¬(cl.vMergeElem.isSome = true ∧ vMergeValOf cl ≠ some "restart")) →
      scanCont t c0 rn fuel = m := by
  intro m
  induction m with
  | zero =>
    intro rn fuel hle hcont hstop
    cases fuel with
    | zero => rfl
    | succ f =>
      rcases hstop with h | h | ⟨cl, hcl, hnot⟩
      · omega
      · unfold scanCont
        rw [show rn + 0 = rn from rfl] at h
        rw [h]
      · unfold scanCont
        rw [show rn + 0 = rn from rfl] at hcl
        rw [hcl]
        dsimp only
        rw [if_neg hnot]
  | succ m ih =>
    intro rn fuel hle hcont hstop
    cases fuel with
    | zero => omega
    | succ f =>
      obtain ⟨cl, hcl, hcond⟩ := hcont 0 (by omega)
      rw [show rn + 0 = rn from rfl] at hcl
      unfold scanCont
      rw [hcl]
      dsimp only
      rw [if_pos ⟨hcond.1, hcond.2⟩]
      have hrec : scanCont t c0 (rn + 1) f = m := by
        apply ih (rn + 1) f (by omega)
        · intro j hj
          have := hcont (j + 1) (by omega)
          rwa [show rn + (j + 1) = rn + 1 + j by omega] at this
        · rcases hstop with h | h | ⟨cl2, hcl2, hnot⟩
          · exact Or.inl (by omega)
          · refine Or.inr (Or.inl ?_)
            rwa [show rn + (m + 1) = rn + 1 + m by omega] at h
          · refine Or.inr (Or.inr ⟨cl2, ?_, hnot⟩)
            rwa [show rn + (m + 1) = rn + 1 + m by omega] at hcl2
      rw [hrec]
      omega

/-- Position `(i, j)` comes strictly before `(r, c)` in the row-major
iteration order of the grid loop. -/
def visitedLt (i j r c : Nat) : Prop :=
  i < r ∨ (i = r ∧ j < c)

instance (i j r c : Nat) : Decidable (visitedLt i j r c) := by
  unfold visitedLt
  infer_instance

/-- The cell (when present) has no vertical-merge element and no
horizontal span beyond 1. -/
def cellUnmergedSpanLe1 (o : Option Cell) : Bool :=
  match o with
  | some cl => decide (cl.vMergeElem = none) &&
      decide (cl.gridSpanVal = none ∨ cl.gridSpanVal = some 1)
  | none => false

/-- The cell is present, marked vertical-merge restart, with no horizontal
span beyond 1. -/
def cellRestartSpanLe1 (o : Option Cell) : Bool :=
  match o with
  | some cl => decide (cl.vMergeElem = some (some "restart")) &&
      decide (cl.gridSpanVal = none ∨ cl.gridSpanVal = some 1)
  | none => false

/-- The cell is present and is a vertical-merge continuation (element
present, value not `"restart"`), with no horizontal span beyond 1. -/
def cellContSpanLe1 (o : Option Cell) : Bool :=
  match o with
  | some cl => cl.vMergeElem.isSome &&
      decide (vMergeValOf cl ≠ some "restart") &&
      decide (cl.gridSpanVal = none ∨ cl.gridSpanVal = some 1)
  | none => false

/-- Invariant of the merge-free scenario (C7) after processing all
positions before `(r, c)`: every visited in-bounds position is occupied by
its own coordinates and nothing else is marked; one block of spans 1×1 was
emitted per visited position; the counter advanced accordingly. -/
def inv7 (C R n r c : Nat) (st : TState) : Prop :=
  (∀ i j, st.grid i j =
    if i < R ∧ j < C ∧ visitedLt i j r c then some (.coord i j) else none) ∧
  st.blocks.length = r * C + c ∧
  st.counter = n + (r * C + c) ∧
  (∀ b ∈ st.blocks, ∃ dd, b = .tableCell dd ∧ dd.rowSpan = 1 ∧ dd.colSpan = 1)

/-- Column step of the C7 invariant. -/
theorem inv7_step (t : DTable) (tblIdx : Option Nat) (C R n : Nat)
    (hR : t.rows.length = R)
    (hlen : ∀ row ∈ t.rows, row.cells.length = C)
    (hcells : ∀ r, r < R → ∀ c, c < C → cellUnmergedSpanLe1 (getCell t r c) = true)
    (r c : Nat) (hr : r < R) (hc : c < C) (st : TState)
    (hinv : inv7 C R n r c st) :
    inv7 C R n r (c + 1) (processCell t tblIdx C R st r c) := by
  obtain ⟨hgrid, hlenB, hcounter, hprops⟩ := hinv
  have hgnone : st.grid r c = none := by
    rw [hgrid]
    have : ¬(r < R ∧ c < C ∧ visitedLt r c r c) := by
      unfold visitedLt
      omega
    rw [if_neg this]
  obtain ⟨cl, hcell⟩ := getCell_isSome t hR hlen hr hc
  have hu := hcells r hr c hc
  rw [hcell] at hu
  unfold cellUnmergedSpanLe1 at hu
  simp only [Bool.and_eq_true, decide_eq_true_eq] at hu
  rw [processCell_unmerged t tblIdx C R st r c cl hgnone hcell hu.1 hu.2 hr hc]
  refine ⟨?_, ?_, ?_, ?_⟩
  · intro i j
    unfold gridSet
    dsimp only
    by_cases hij : i = r ∧ j = c
    · obtain ⟨rfl, rfl⟩ := hij
      rw [if_pos ⟨rfl, rfl⟩]
      have : i < R ∧ j < C ∧ visitedLt i j i (j + 1) := by
        unfold visitedLt
        omega
      rw [if_pos this]
    · rw [if_neg hij, hgrid i j]
      have hiff : (i < R ∧ j < C ∧ visitedLt i j r c) ↔
          (i < R ∧ j < C ∧ visitedLt i j r (c + 1)) := by
        unfold visitedLt
        constructor
        · rintro ⟨h1, h2, h3⟩
          exact ⟨h1, h2, by omega⟩
        · rintro ⟨h1, h2, h3⟩
          refine ⟨h1, h2, ?_⟩
          rcases h3 with h | ⟨h4, h5⟩
          · omega
          · rcases Nat.lt_succ_iff_lt_or_eq.mp h5 with h6 | h6
            · omega
            · exact absurd ⟨h4, h6⟩ hij
      by_cases hv : i < R ∧ j < C ∧ visitedLt i j r c
      · rw [if_pos hv, if_pos (hiff.mp hv)]
      · rw [if_neg hv, if_neg (fun h2 => hv (hiff.mpr h2))]
  · simp only [List.length_append, List.length_singleton]
    rw [hlenB, Nat.add_assoc]
  · dsimp only
    rw [hcounter]
    simp [Nat.add_assoc]
  · intro b hb
    rw [List.mem_append] at hb
    rcases hb with hb | hb
    · exact hprops b hb
    · rw [List.mem_singleton] at hb
      subst hb
      exact ⟨_, rfl, rfl, rfl⟩

/-- Row wrap of the C7 invariant. -/
theorem inv7_wrap (C R n r : Nat) (st : TState)
    (hinv : inv7 C R n r C st) : inv7 C R n (r + 1) 0 st := by
  obtain ⟨hgrid, hlenB, hcounter, hprops⟩ := hinv
  refine ⟨?_, ?_, ?_, hprops⟩
  · intro i j
    rw [hgrid i j]
    have hiff : (i < R ∧ j < C ∧ visitedLt i j r C) ↔
        (i < R ∧ j < C ∧ visitedLt i j (r + 1) 0) := by
      unfold visitedLt
      omega
    by_cases hv : i < R ∧ j < C ∧ visitedLt i j r C
    · rw [if_pos hv, if_pos (hiff.mp hv)]
    · rw [if_neg hv, if_neg (fun h2 => hv (hiff.mpr h2))]
  · rw [hlenB, Nat.add_zero, Nat.succ_mul]
  · rw [hcounter, Nat.add_zero, Nat.succ_mul]

/-- The C7 invariant holds at the start of every row. -/
theorem inv7_main (t : DTable) (tblIdx : Option Nat) (C R n : Nat)
    (hR : t.rows.length = R)
    (hlen : ∀ row ∈ t.rows, row.cells.length = C)
    (hcells : ∀ r, r < R → ∀ c, c < C → cellUnmergedSpanLe1 (getCell t r c) = true) :
    ∀ r, r ≤ R → inv7 C R n r 0
      (processUpTo t tblIdx C R
        { grid := fun _ _ => none, blocks := [], counter := n } r 0) := by
  intro r
  induction r with
  | zero =>
    intro _
    rw [processUpTo_zero]
    refine ⟨?_, by simp, by simp, by intro b hb; cases hb⟩
    intro i j
    have : ¬(i < R ∧ j < C ∧ visitedLt i j 0 0) := by
      unfold visitedLt
      omega
    rw [if_neg this]
  | succ r ih =>
    intro hr1
    have hr : r < R := by omega
    have hbase := ih (by omega)
    have hcols : ∀ c, c ≤ C → inv7 C R n r c
        (processUpTo t tblIdx C R
          { grid := fun _ _ => none, blocks := [], counter := n } r c) := by
      intro c
      induction c with
      | zero => intro _; exact hbase
      | succ c ihc =>
        intro hc1
        rw [processUpTo_succ_col]
        exact inv7_step t tblIdx C R n hR hlen hcells r c hr (by omega) _
          (ihc (by omega))
    rw [processUpTo_row_end]
    exact inv7_wrap C R n r _ (hcols C (le_refl C))

/-- C7: a table with `R` rows, `C` logical columns, full rows and no
merged cells (no vertical-merge elements, no horizontal span beyond 1)
yields its TableMetadata block plus exactly `R * C` TableCellCombined
blocks, each with row span 1 and column span 1, and the shared counter
advances by `1 + R * C`. -/
theorem claim_C7 (t : DTable) (tblIdx : Option Nat) (n R C : Nat)
    (hR : t.rows.length = R) (hC : actualCols t = C)
    (hlen : ∀ row ∈ t.rows, row.cells.length = C)
    (hcells : ∀ r, r < R → ∀ c, c < C → cellUnmergedSpanLe1 (getCell t r c) = true) :
    (processTableNode t tblIdx n).1 =
      mkTableMetaBlock t tblIdx n :: (runTableCells t tblIdx (n + 1)).blocks ∧
    (runTableCells t tblIdx (n + 1)).blocks.length = R * C ∧
    (∀ b ∈ (runTableCells t tblIdx (n + 1)).blocks,
      ∃ dd, b = .tableCell dd ∧ dd.rowSpan = 1 ∧ dd.colSpan = 1) ∧
    (processTableNode t tblIdx n).2 = n + 1 + R * C := by
  subst hR hC
  have hfin := inv7_main t tblIdx (actualCols t) t.rows.length (n + 1)
    rfl hlen hcells t.rows.length (le_refl _)
  rw [← runTableCells_eq_upTo] at hfin
  obtain ⟨-, hlenB, hcounter, hprops⟩ := hfin
  refine ⟨rfl, ?_, hprops, ?_⟩
  · rw [hlenB, Nat.add_zero]
  · show (runTableCells t tblIdx (n + 1)).counter =
      n + 1 + t.rows.length * actualCols t
    rw [hcounter]
    simp

/-- C7 witness: a plain 2-row, 2-column table yields one metadata block
plus four 1×1 cell blocks, counter advanced by 5. -/
theorem claim_C7_witness :
    (processTableNode
        { rows := [{ cells := [{}, {}] }, { cells := [{}, {}] }],
          colCount := 2 } (some 0) 0).1 =
      mkTableMetaBlock
        { rows := [{ cells := [{}, {}] }, { cells := [{}, {}] }],
          colCount := 2 } (some 0) 0 ::
        (runTableCells
          { rows := [{ cells := [{}, {}] }, { cells := [{}, {}] }],
            colCount := 2 } (some 0) 1).blocks ∧
    (runTableCells
      { rows := [{ cells := [{}, {}] }, { cells := [{}, {}] }],
        colCount := 2 } (some 0) 1).blocks.length = 2 * 2 ∧
    (∀ b ∈ (runTableCells
        { rows := [{ cells := [{}, {}] }, { cells := [{}, {}] }],
          colCount := 2 } (some 0) 1).blocks,
      ∃ dd, b = .tableCell dd ∧ dd.rowSpan = 1 ∧ dd.colSpan = 1) ∧
    (processTableNode
        { rows := [{ cells := [{}, {}] }, { cells := [{}, {}] }],
          colCount := 2 } (some 0) 0).2 = 0 + 1 + 2 * 2 :=
  claim_C7 _ (some 0) 0 2 2 rfl (by decide) (by decide) (by decide)

/-- The block is a TableCellCombined block whose primary position lies in
the merged column region (column `c0`, rows `r0 .. r0 + k - 1`). -/
def inMergeRegion (r0 c0 k : Nat) : Block → Bool
  | .tableCell dd =>
    decide (dd.colIndex = c0 ∧ r0 ≤ dd.rowIndex ∧ dd.rowIndex < r0 + k)
  | _ => false

/-- Invariant of the single-vertical-merge scenario after processing
all positions before `(r, c)`: the `k - 1` continuation positions carry the
primary's coordinates as soon as the primary has been processed and carry
nothing before; every other visited in-bounds position carries its own
coordinates; exactly one region block (the primary's, with row span `k`
and column span 1) exists once the primary has been processed. -/
def inv6 (C R r0 c0 k : Nat) (r c : Nat) (st : TState) : Prop :=
  (∀ a b, st.grid a b =
    if b = c0 ∧ r0 < a ∧ a < r0 + k ∧ a < R ∧ b < C then
      (if visitedLt r0 c0 r c then some (.coord r0 c0) else none)
    else if a < R ∧ b < C ∧ visitedLt a b r c then some (.coord a b) else none) ∧
  st.blocks.countP (inMergeRegion r0 c0 k) =
    (if visitedLt r0 c0 r c then 1 else 0) ∧
  (∀ b ∈ st.blocks, inMergeRegion r0 c0 k b = true →
    ∃ dd, b = .tableCell dd ∧ dd.rowIndex = r0 ∧ dd.colIndex = c0 ∧
      dd.rowSpan = k ∧ dd.colSpan = 1)

/-- Continuation-scan evaluation in the single-merge scenario: the scan below the
primary counts exactly the `k - 1` continuation rows. -/
theorem scanCont_c6 (t : DTable) (C R r0 c0 k : Nat)
    (hR : t.rows.length = R)
    (hlen : ∀ row ∈ t.rows, row.cells.length = C)
    (hk : 1 ≤ k) (hc0 : c0 < C) (hr0k : r0 + k ≤ R)
    (hcont : ∀ r, r < r0 + k → r0 < r → cellContSpanLe1 (getCell t r c0) = true)
    (hother : ∀ r, r < R → ∀ c, c < C →
      ¬(c = c0 ∧ r0 ≤ r ∧ r < r0 + k) → cellUnmergedSpanLe1 (getCell t r c) = true) :
    scanCont t c0 (r0 + 1) (R - (r0 + 1)) = k - 1 := by
  apply scanCont_eval t c0 (k - 1) (r0 + 1) (R - (r0 + 1)) (by omega)
  · intro j hj
    obtain ⟨cl, hcl⟩ := getCell_isSome t hR hlen
      (show r0 + 1 + j < R by omega) hc0
    have h1 := hcont (r0 + 1 + j) (by omega) (by omega)
    rw [hcl] at h1
    unfold cellContSpanLe1 at h1
    simp only [Bool.and_eq_true, decide_eq_true_eq] at h1
    exact ⟨cl, hcl, h1.1.1, h1.1.2⟩
  · by_cases hend : r0 + k = R
    · exact Or.inl (by omega)
    · refine Or.inr (Or.inr ?_)
      rw [show r0 + 1 + (k - 1) = r0 + k by omega]
      obtain ⟨cl, hcl⟩ := getCell_isSome t hR hlen
        (show r0 + k < R by omega) hc0
      have h1 := hother (r0 + k) (by omega) c0 hc0 (by omega)
      rw [hcl] at h1
      unfold cellUnmergedSpanLe1 at h1
      simp only [Bool.and_eq_true, decide_eq_true_eq] at h1
      refine ⟨cl, hcl, ?_⟩
      rw [h1.1]
      simp

/-- Column step of the single-merge invariant. -/
theorem inv6_step (t : DTable) (tblIdx : Option Nat) (C R r0 c0 k : Nat)
    (hR : t.rows.length = R)
    (hlen : ∀ row ∈ t.rows, row.cells.length = C)
    (hk : 1 ≤ k) (hc0 : c0 < C) (hr0k : r0 + k ≤ R)
    (hprim : cellRestartSpanLe1 (getCell t r0 c0) = true)
    (hcont : ∀ r, r < r0 + k → r0 < r → cellContSpanLe1 (getCell t r c0) = true)
    (hother : ∀ r, r < R → ∀ c, c < C →
      ¬(c = c0 ∧ r0 ≤ r ∧ r < r0 + k) → cellUnmergedSpanLe1 (getCell t r c) = true)
    (r c : Nat) (hr : r < R) (hc : c < C) (st : TState)
    (hinv : inv6 C R r0 c0 k r c st) :
    inv6 C R r0 c0 k r (c + 1) (processCell t tblIdx C R st r c) := by
  obtain ⟨hgrid, hcount, hprops⟩ := hinv
  have hvisrc : ¬ visitedLt r c r c := by
    unfold visitedLt
    omega
  by_cases hB : r = r0 ∧ c = c0
  · -- the primary restart cell
    obtain ⟨rfl, rfl⟩ := hB
    have hvis0 : ¬ visitedLt r c r c := hvisrc
    have hgnone : st.grid r c = none := by
      rw [hgrid]
      rw [if_neg (by omega), if_neg (by
        rintro ⟨-, -, hv⟩
        exact hvis0 hv)]
    obtain ⟨cl, hcl⟩ := getCell_isSome t hR hlen hr hc
    have hp := hprim
    rw [hcl] at hp
    unfold cellRestartSpanLe1 at hp
    simp only [Bool.and_eq_true, decide_eq_true_eq] at hp
    have hscan := scanCont_c6 t C R r c k hR hlen hk hc hr0k hcont hother
    rw [processCell_restart t tblIdx C R st r c cl hgnone hcl hp.1 hp.2]
    rw [show 1 + scanCont t c (r + 1) (R - (r + 1)) = k by omega]
    have hvis1 : visitedLt r c r (c + 1) := by
      unfold visitedLt
      omega
    refine ⟨?_, ?_, ?_⟩
    · intro a b
      dsimp only
      rw [markSpan_col, hgrid a b]
      rw [if_neg hvis0, if_pos hvis1]
      by_cases hreg : b = c ∧ r < a ∧ a < r + k ∧ a < R ∧ b < C
      · simp only [if_pos hreg]
        rw [if_pos ⟨hreg.1, hc, by omega, hreg.2.2.1, hreg.2.2.2.1, by trivial⟩]
      · simp only [if_neg hreg]
        by_cases hab : a = r ∧ b = c
        · have hnv : ¬(a < R ∧ b < C ∧ visitedLt a b r c) := by
            rintro ⟨-, -, hv⟩
            rw [hab.1, hab.2] at hv
            exact hvis0 hv
          rw [if_neg hnv]
          rw [if_pos ⟨hab.2, hc, by omega, by omega, by omega, rfl⟩]
          rw [if_pos ⟨by omega, by omega, by
            unfold visitedLt
            omega⟩]
          rw [hab.1, hab.2]
        · have hLHS : ¬(b = c ∧ c < C ∧ r ≤ a ∧ a < r + k ∧ a < R ∧
              (if a < R ∧ b < C ∧ visitedLt a b r c then
                some (Occ.coord (a : Int) (b : Int)) else none) = none) := by
            rintro ⟨x1, x2, x3, x4, x5, -⟩
            have : r < a ∨ a = r := by omega
            rcases this with h | h
            · exact hreg ⟨x1, h, x4, x5, by omega⟩
            · exact hab ⟨h, x1⟩
          rw [if_neg hLHS]
          have hiff : (a < R ∧ b < C ∧ visitedLt a b r c) ↔
              (a < R ∧ b < C ∧ visitedLt a b r (c + 1)) := by
            unfold visitedLt
            constructor
            · rintro ⟨x1, x2, x3⟩
              exact ⟨x1, x2, by omega⟩
            · rintro ⟨x1, x2, x3⟩
              refine ⟨x1, x2, ?_⟩
              rcases x3 with h | ⟨h4, h5⟩
              · omega
              · rcases Nat.lt_succ_iff_lt_or_eq.mp h5 with h6 | h6
                · omega
                · exact absurd ⟨h4, h6⟩ hab
          by_cases hv : a < R ∧ b < C ∧ visitedLt a b r c
          · rw [if_pos hv, if_pos (hiff.mp hv)]
          · rw [if_neg hv, if_neg (fun h2 => hv (hiff.mpr h2))]
    · dsimp only
      rw [List.countP_append, hcount, if_neg hvis0, if_pos hvis1]
      have hnew : inMergeRegion r c k (mkCellBlock cl tblIdx r c k 1 st.counter) =
          true := by
        show decide (c = c ∧ r ≤ r ∧ r < r + k) = true
        exact decide_eq_true ⟨rfl, le_refl r, by omega⟩
      simp [List.countP_cons, hnew]
    · intro b hb hbreg
      dsimp only at hb
      rw [List.mem_append] at hb
      rcases hb with hb | hb
      · have hzero : st.blocks.countP (inMergeRegion r c k) = 0 := by
          rw [hcount, if_neg hvis0]
        exact absurd hbreg (by simpa using (List.countP_eq_zero.mp hzero) b hb)
      · rw [List.mem_singleton] at hb
        subst hb
        exact ⟨_, rfl, rfl, rfl, rfl, rfl⟩
  · -- not the primary: a continuation position, or an ordinary cell
    have hiff2 : ∀ a b, ¬(a = r ∧ b = c) →
        ((a < R ∧ b < C ∧ visitedLt a b r c) ↔
         (a < R ∧ b < C ∧ visitedLt a b r (c + 1))) := by
      intro a b hab
      unfold visitedLt
      constructor
      · rintro ⟨x1, x2, x3⟩
        exact ⟨x1, x2, by omega⟩
      · rintro ⟨x1, x2, x3⟩
        refine ⟨x1, x2, ?_⟩
        rcases x3 with h | ⟨h4, h5⟩
        · omega
        · rcases Nat.lt_succ_iff_lt_or_eq.mp h5 with h6 | h6
          · omega
          · exact absurd ⟨h4, h6⟩ hab
    have hvq : visitedLt r0 c0 r c ↔ visitedLt r0 c0 r (c + 1) := by
      unfold visitedLt
      constructor
      · intro h
        rcases h with h | ⟨h1, h2⟩
        · omega
        · omega
      · intro h
        rcases h with h | ⟨h1, h2⟩
        · omega
        · rcases Nat.lt_succ_iff_lt_or_eq.mp h2 with h3 | h3
          · omega
          · exact absurd ⟨h1.symm, h3.symm⟩ hB
    by_cases hA : c = c0 ∧ r0 < r ∧ r < r0 + k
    · -- continuation position: already occupied by the primary, skipped
      have hvprim : visitedLt r0 c0 r c := by
        unfold visitedLt
        omega
      have hocc : st.grid r c = some (.coord r0 c0) := by
        rw [hgrid]
        rw [if_pos ⟨hA.1, hA.2.1, hA.2.2, hr, hc⟩, if_pos hvprim]
      rw [processCell_skip t tblIdx C R st r c _ hocc]
      refine ⟨?_, ?_, hprops⟩
      · intro a b
        rw [hgrid a b]
        by_cases hreg : b = c0 ∧ r0 < a ∧ a < r0 + k ∧ a < R ∧ b < C
        · rw [if_pos hreg, if_pos hreg, if_pos hvprim, if_pos (hvq.mp hvprim)]
        · rw [if_neg hreg, if_neg hreg]
          by_cases hab : a = r ∧ b = c
          · obtain ⟨rfl, rfl⟩ := hab
            rw [if_neg (by
              rintro ⟨-, -, hv⟩
              exact hvisrc hv)]
            rw [if_neg (by
              rintro ⟨x1, x2, -⟩
              exact hreg ⟨hA.1, hA.2.1, hA.2.2, x1, x2⟩)]
          · by_cases hv : a < R ∧ b < C ∧ visitedLt a b r c
            · rw [if_pos hv, if_pos ((hiff2 a b hab).mp hv)]
            · rw [if_neg hv, if_neg (fun h2 => hv ((hiff2 a b hab).mpr h2))]
      · rw [hcount]
        by_cases hvv : visitedLt r0 c0 r c
        · rw [if_pos hvv, if_pos (hvq.mp hvv)]
        · rw [if_neg hvv, if_neg (fun h2 => hvv (hvq.mpr h2))]
    · -- ordinary unmerged cell
      have hout : ¬(c = c0 ∧ r0 ≤ r ∧ r < r0 + k) := by
        rintro ⟨x1, x2, x3⟩
        have : r = r0 ∨ r0 < r := by omega
        rcases this with h | h
        · exact hB ⟨h, x1⟩
        · exact hA ⟨x1, h, x3⟩
      have hgnone : st.grid r c = none := by
        rw [hgrid]
        rw [if_neg (by
          rintro ⟨x1, x2, x3, -, -⟩
          exact hout ⟨x1, by omega, x3⟩)]
        rw [if_neg (by
          rintro ⟨-, -, hv⟩
          exact hvisrc hv)]
      obtain ⟨cl, hcl⟩ := getCell_isSome t hR hlen hr hc
      have hu := hother r hr c hc hout
      rw [hcl] at hu
      unfold cellUnmergedSpanLe1 at hu
      simp only [Bool.and_eq_true, decide_eq_true_eq] at hu
      rw [processCell_unmerged t tblIdx C R st r c cl hgnone hcl hu.1 hu.2 hr hc]
      refine ⟨?_, ?_, ?_⟩
      · intro a b
        unfold gridSet
        dsimp only
        by_cases hab : a = r ∧ b = c
        · obtain ⟨rfl, rfl⟩ := hab
          rw [if_pos ⟨rfl, rfl⟩]
          rw [if_neg (by
            rintro ⟨x1, x2, x3, -, -⟩
            exact hout ⟨x1, by omega, x3⟩)]
          rw [if_pos ⟨hr, hc, by unfold visitedLt; omega⟩]
        · rw [if_neg hab, hgrid a b]
          by_cases hreg : b = c0 ∧ r0 < a ∧ a < r0 + k ∧ a < R ∧ b < C
          · rw [if_pos hreg, if_pos hreg]
            by_cases hvv : visitedLt r0 c0 r c
            · rw [if_pos hvv, if_pos (hvq.mp hvv)]
            · rw [if_neg hvv, if_neg (fun h2 => hvv (hvq.mpr h2))]
          · rw [if_neg hreg, if_neg hreg]
            by_cases hv : a < R ∧ b < C ∧ visitedLt a b r c
            · rw [if_pos hv, if_pos ((hiff2 a b hab).mp hv)]
            · rw [if_neg hv, if_neg (fun h2 => hv ((hiff2 a b hab).mpr h2))]
      · dsimp only
        rw [List.countP_append, hcount]
        have hnew : inMergeRegion r0 c0 k (mkCellBlock cl tblIdx r c 1 1 st.counter) =
            false := by
          show decide (c = c0 ∧ r0 ≤ r ∧ r < r0 + k) = false
          simp only [decide_eq_false_iff_not]
          exact hout
        rw [List.countP_cons, List.countP_nil, hnew]
        simp only [Bool.false_eq_true, if_false, Nat.zero_add, Nat.add_zero]
        by_cases hvv : visitedLt r0 c0 r c
        · rw [if_pos hvv, if_pos (hvq.mp hvv)]
        · rw [if_neg hvv, if_neg (fun h2 => hvv (hvq.mpr h2))]
      · intro b hb hbreg
        dsimp only at hb
        rw [List.mem_append] at hb
        rcases hb with hb | hb
        · exact hprops b hb hbreg
        · rw [List.mem_singleton] at hb
          subst hb
          exact absurd (by
            have : inMergeRegion r0 c0 k (mkCellBlock cl tblIdx r c 1 1 st.counter) =
                false := by
              show decide (c = c0 ∧ r0 ≤ r ∧ r < r0 + k) = false
              simp only [decide_eq_false_iff_not]
              exact hout
            rw [this] at hbreg
            exact hbreg) (by simp)

/-- Row wrap of the single-merge invariant. -/
theorem inv6_wrap (C R r0 c0 k : Nat) (hc0 : c0 < C) (r : Nat) (st : TState)
    (hinv : inv6 C R r0 c0 k r C st) : inv6 C R r0 c0 k (r + 1) 0 st := by
  obtain ⟨hgrid, hcount, hprops⟩ := hinv
  have hvq : visitedLt r0 c0 r C ↔ visitedLt r0 c0 (r + 1) 0 := by
    unfold visitedLt
    constructor
    · intro h
      omega
    · intro h
      omega
  refine ⟨?_, ?_, hprops⟩
  · intro a b
    rw [hgrid a b]
    have hiff : (a < R ∧ b < C ∧ visitedLt a b r C) ↔
        (a < R ∧ b < C ∧ visitedLt a b (r + 1) 0) := by
      unfold visitedLt
      constructor
      · rintro ⟨x1, x2, x3⟩
        exact ⟨x1, x2, by omega⟩
      · rintro ⟨x1, x2, x3⟩
        exact ⟨x1, x2, by omega⟩
    by_cases hreg : b = c0 ∧ r0 < a ∧ a < r0 + k ∧ a < R ∧ b < C
    · rw [if_pos hreg, if_pos hreg]
      by_cases hvv : visitedLt r0 c0 r C
      · rw [if_pos hvv, if_pos (hvq.mp hvv)]
      · rw [if_neg hvv, if_neg (fun h => hvv (hvq.mpr h))]
    · rw [if_neg hreg, if_neg hreg]
      by_cases hv : a < R ∧ b < C ∧ visitedLt a b r C
      · rw [if_pos hv, if_pos (hiff.mp hv)]
      · rw [if_neg hv, if_neg (fun h => hv (hiff.mpr h))]
  · rw [hcount]
    by_cases hvv : visitedLt r0 c0 r C
    · rw [if_pos hvv, if_pos (hvq.mp hvv)]
    · rw [if_neg hvv, if_neg (fun h => hvv (hvq.mpr h))]

/-- The single-merge invariant holds at the start of every row. -/
theorem inv6_main (t : DTable) (tblIdx : Option Nat) (C R r0 c0 k n : Nat)
    (hR : t.rows.length = R)
    (hlen : ∀ row ∈ t.rows, row.cells.length = C)
    (hk : 1 ≤ k) (hc0 : c0 < C) (hr0k : r0 + k ≤ R)
    (hprim : cellRestartSpanLe1 (getCell t r0 c0) = true)
    (hcont : ∀ r, r < r0 + k → r0 < r → cellContSpanLe1 (getCell t r c0) = true)
    (hother : ∀ r, r < R → ∀ c, c < C →
      ¬(c = c0 ∧ r0 ≤ r ∧ r < r0 + k) → cellUnmergedSpanLe1 (getCell t r c) = true) :
    ∀ r, r ≤ R → inv6 C R r0 c0 k r 0
      (processUpTo t tblIdx C R
        { grid := fun _ _ => none, blocks := [], counter := n } r 0) := by
  intro r
  induction r with
  | zero =>
    intro _
    rw [processUpTo_zero]
    have hvis00 : ¬ visitedLt r0 c0 0 0 := by
      unfold visitedLt
      omega
    refine ⟨?_, by rw [if_neg hvis00]; rfl, by intro b hb; cases hb⟩
    intro a b
    by_cases hreg : b = c0 ∧ r0 < a ∧ a < r0 + k ∧ a < R ∧ b < C
    · rw [if_pos hreg, if_neg hvis00]
    · rw [if_neg hreg, if_neg (by
        rintro ⟨-, -, hv⟩
        unfold visitedLt at hv
        omega)]
  | succ r ih =>
    intro hr1
    have hr : r < R := by omega
    have hbase := ih (by omega)
    have hcols : ∀ c, c ≤ C → inv6 C R r0 c0 k r c
        (processUpTo t tblIdx C R
          { grid := fun _ _ => none, blocks := [], counter := n } r c) := by
      intro c
      induction c with
      | zero => intro _; exact hbase
      | succ c ihc =>
        intro hc1
        rw [processUpTo_succ_col]
        exact inv6_step t tblIdx C R r0 c0 k hR hlen hk hc0 hr0k hprim hcont
          hother r c hr (by omega) _ (ihc (by omega))
    rw [processUpTo_row_end]
    exact inv6_wrap C R r0 c0 k hc0 r _ (hcols C (le_refl C))

/-- Behaviour of the merge-grid algorithm under the raw per-coordinate
cell access it was written against (spec section 6): in a table whose
only merge is one vertical merge spanning rows `r0 .. r0 + k - 1` of
column `c0` (restart on the first row, continuations below, no horizontal
spans), the reconstruction emits exactly one TableCellCombined block for
that region — the primary's, with row span `k` and column span 1 — and
marks the `k - 1` continuation grid positions as occupied by the
primary's coordinates while emitting no block of their own.  This is the
intended behaviour the source's continuation branch and rowspan scan
implement; through python-docx's merge-resolving `Table.cell` those
branches are unreachable and the program diverges from it — see
`claim_C6`. -/
theorem mergeGrid_spec_under_rawCellAccess
    (t : DTable) (tblIdx : Option Nat) (n R C r0 c0 k : Nat)
    (hR : t.rows.length = R) (hC : actualCols t = C)
    (hlen : ∀ row ∈ t.rows, row.cells.length = C)
    (hk : 1 ≤ k) (hc0 : c0 < C) (hr0k : r0 + k ≤ R)
    (hprim : cellRestartSpanLe1 (getCell t r0 c0) = true)
    (hcont : ∀ r, r < r0 + k → r0 < r → cellContSpanLe1 (getCell t r c0) = true)
    (hother : ∀ r, r < R → ∀ c, c < C →
      ¬(c = c0 ∧ r0 ≤ r ∧ r < r0 + k) → cellUnmergedSpanLe1 (getCell t r c) = true) :
    (runTableCells t tblIdx n).blocks.countP (inMergeRegion r0 c0 k) = 1 ∧
    (∀ b ∈ (runTableCells t tblIdx n).blocks, inMergeRegion r0 c0 k b = true →
      ∃ dd, b = .tableCell dd ∧ dd.rowIndex = r0 ∧ dd.colIndex = c0 ∧
        dd.rowSpan = k ∧ dd.colSpan = 1) ∧
    (∀ r, r0 < r → r < r0 + k →
      (runTableCells t tblIdx n).grid r c0 = some (.coord r0 c0)) := by
  subst hR hC
  have hfin := inv6_main t tblIdx (actualCols t) t.rows.length r0 c0 k n
    rfl hlen hk hc0 hr0k hprim hcont hother t.rows.length (le_refl _)
  rw [← runTableCells_eq_upTo] at hfin
  obtain ⟨hgrid, hcount, hprops⟩ := hfin
  have hvfin : visitedLt r0 c0 t.rows.length 0 := by
    unfold visitedLt
    omega
  refine ⟨?_, hprops, ?_⟩
  · rw [hcount, if_pos hvfin]
  · intro r hra hrb
    rw [hgrid r c0]
    rw [if_pos ⟨rfl, hra, hrb, by omega, hc0⟩, if_pos hvfin]

/-- Table with a single vertical merge, used as the concrete C6 input:
3 rows, 2 columns, restart at (0, 0), continuation at (1, 0). -/
def tC6w : DTable :=
  { rows :=
      [{ cells := [{ vMergeElem := some (some "restart"),
                     paras := [{ runs := [{ text := "m" }] }] }, {}] },
       { cells := [{ vMergeElem := some (some "continue") }, {}] },
       { cells := [{}, {}] }]
    colCount := 2 }

/-- Concrete instance of `mergeGrid_spec_under_rawCellAccess` on the 3×2
table with one k = 2 vertical merge at column 0: under raw cell access,
exactly one region block is emitted, it is the primary's with row span 2,
and grid position (1, 0) is occupied by the primary's coordinates. -/
theorem mergeGrid_spec_under_rawCellAccess_example :
    (runTableCells tC6w (some 0) 1).blocks.countP (inMergeRegion 0 0 2) = 1 ∧
    (∀ b ∈ (runTableCells tC6w (some 0) 1).blocks, inMergeRegion 0 0 2 b = true →
      ∃ dd, b = .tableCell dd ∧ dd.rowIndex = 0 ∧ dd.colIndex = 0 ∧
        dd.rowSpan = 2 ∧ dd.colSpan = 1) ∧
    (∀ r, 0 < r → r < 0 + 2 →
      (runTableCells tC6w (some 0) 1).grid r 0 = some (.coord 0 0)) :=
  mergeGrid_spec_under_rawCellAccess tC6w (some 0) 1 3 2 0 0 2 rfl (by decide)
    (by decide) (by decide) (by decide) (by decide) (by decide) (by decide)
    (by decide)

/-- The cell's effective vertical-merge value is `CONTINUE` in python-docx
terms (`CT_Tc.vMerge == ST_Merge.CONTINUE`): a `w:vMerge` element whose
`w:val` is absent (the schema default) or `"continue"`. -/
def tcVMergeIsContinue (tc : Cell) : Bool :=
  match tc.vMergeElem with
  | none => false
  | some none => true
  | some (some v) => v = "continue"

/-- Python negative-offset list access `l[-k]` as used by
`cells.append(cells[-col_count])`: `l[0]` when `k = 0`, `l[len - k]` when
`1 ≤ k ≤ len`, IndexError otherwise. -/
def pyNegIndex (l : List Cell) (k : Nat) : Option Cell :=
  if k = 0 then l.get? 0
  else if k ≤ l.length then l.get? (l.length - k)
  else none

/-- One append step of python-docx's `Table._cells` (per `tc`, per
`grid_span_idx`): a vertical-merge continuation repeats the entry one
logical row up (`cells[-col_count]`, the restart cell); the first grid
span index appends the `tc` itself; later span indices repeat the previous
entry.  `none` models an IndexError escaping `_cells`. -/
def appendResolvedCell (colCount : Nat) (tc : Cell) (acc : List Cell)
    (gsIdx : Nat) : Option (List Cell) :=
  if tcVMergeIsContinue tc then (pyNegIndex acc colCount).map (fun x => acc ++ [x])
  else if gsIdx = 0 then some (acc ++ [tc])
  else (acc.getLast?).map (fun x => acc ++ [x])

/-- Python-docx's `Table._cells`: iterate every `tc` of every row in
order, appending `grid_span` entries per `tc`, with merges resolved
against the flattened list so far; `_column_count` is the `tblGrid`
column-definition count. -/
def tableResolvedCells (t : DTable) : Option (List Cell) :=
  (t.rows.flatMap (fun row => row.cells)).foldl
    (fun acc? tc =>
      (List.range (tc.gridSpanVal.getD 1).toNat).foldl
        (fun acc? gsIdx =>
          acc?.bind (fun acc => appendResolvedCell t.colCount tc acc gsIdx))
        acc?)
    (some [])

/-- Python-docx's `Table.cell(r, c)`: index `c + r * _column_count` into
the flattened merge-resolved `_cells` list.  At a vertical-merge
continuation coordinate this returns the restart cell (whose `w:vMerge`
val is `"restart"`), not the continuation `tc` at that coordinate. -/
def tableCellResolved (t : DTable) (r c : Nat) : Option Cell :=
  (tableResolvedCells t).bind (fun cells => cells.get? (c + r * t.colCount))

/-- The rowspan scan of the source, with `table_object.cell` given its
real python-docx semantics (`tableCellResolved`). -/
def scanContResolved (t : DTable) (c : Nat) : Nat → Nat → Nat
  | _, 0 => 0
  | rn, fuel + 1 =>
    match tableCellResolved t rn c with
    | none => 0
    | some cl =>
      if cl.vMergeElem.isSome ∧ vMergeValOf cl ≠ some "restart" then
        1 + scanContResolved t c (rn + 1) fuel
      else 0

/-- The per-position body of the merge-grid loop, with `table_object.cell`
given its real python-docx semantics; the source lines are the same as in
`processCell`, only the cell accessor differs. -/
def processCellResolved (t : DTable) (tblIdx : Option Nat) (C R : Nat)
    (st : TState) (r c : Nat) : TState :=
  match st.grid r c with
  | some _ => st
  | none =>
    match tableCellResolved t r c with
    | none => { st with grid := gridSet st.grid r c Occ.indexError }
    | some cl =>
      let v := vMergeValOf cl
      if v ≠ none ∧ v ≠ some "restart" then
        let above :=
          if 0 < r ∧ (st.grid (r - 1) c).isSome ∧
              st.grid (r - 1) c ≠ some Occ.indexError then
            st.grid (r - 1) c
          else none
        { st with
            grid := fun a b =>
              if a = r ∧ b = c then
                some (above.getD (Occ.coord ((r : Int) - 1) (c : Int)))
              else st.grid a b }
      else
        let colspan : Int := cl.gridSpanVal.getD 1
        let rowspan : Nat :=
          if v = some "restart" then 1 + scanContResolved t c (r + 1) (R - (r + 1))
          else 1
        { grid := markSpan st.grid R C r c rowspan colspan
          blocks := st.blocks ++ [mkCellBlock cl tblIdx r c rowspan colspan st.counter]
          counter := st.counter + 1 }

/-- The full merge-grid run with the real python-docx cell accessor. -/
def runTableCellsResolved (t : DTable) (tblIdx : Option Nat) (counter : Nat) :
    TState :=
  let C := actualCols t
  let R := t.rows.length
  (List.range R).foldl
    (fun st r =>
      (List.range C).foldl (fun st c => processCellResolved t tblIdx C R st r c) st)
    { grid := fun _ _ => none, blocks := [], counter := counter }

/-- Row span of a block, when it is a combined-cell block. -/
def blockRowSpan : Block → Option Nat
  | .tableCell dd => some dd.rowSpan
  | _ => none

/-- Primary row index of a block, when it is a combined-cell block. -/
def blockRowIndex : Block → Option Nat
  | .tableCell dd => some dd.rowIndex
  | _ => none

/-- Textual payload of a block, when it carries one. -/
def blockText : Block → Option String
  | .para d => some d.text
  | .tableCell d => some d.text
  | .tableMeta _ => none

/-- C6: evaluation of the merge-grid reconstruction at the failing input
`tC6w` (one k = 2 vertical merge in column 0 of a 3×2 table), with
`table_object.cell` given its real python-docx semantics.  Because
`Table.cell` resolves merges, the continuation coordinate (1, 0) yields
the restart cell itself, the continuation branch never fires and the
rowspan scan stops immediately; the program emits two duplicate
TableCellCombined blocks for the merged region — rows 0 and 1, each with
row span 1, both carrying the restart cell's text — and marks grid
position (1, 0) as occupied by its own coordinates, not the primary's.
The claim's "exactly one block with row_span = k and k − 1 positions
occupied by the primary" therefore fails on the program as it runs. -/
theorem claim_C6 :
    tableCellResolved tC6w 1 0 = tableCellResolved tC6w 0 0 ∧
    (tableCellResolved tC6w 1 0).map (fun cl => cl.vMergeElem) =
      some (some (some "restart")) ∧
    (runTableCellsResolved tC6w (some 0) 1).blocks.countP (inMergeRegion 0 0 2) = 2 ∧
    ((runTableCellsResolved tC6w (some 0) 1).blocks.filter
        (inMergeRegion 0 0 2)).map
      (fun b => (blockRowIndex b, blockRowSpan b, blockText b)) =
      [(some 0, some 1, some "m"), (some 1, some 1, some "m")] ∧
    (runTableCellsResolved tC6w (some 0) 1).grid 1 0 = some (.coord 1 0) := by
  exact ⟨rfl, rfl, rfl, rfl, rfl⟩
